import Mathlib

/-!
Verification of the embassy-async-button library against its specification.

The Rust sources are shallowly embedded in Lean.  Machine integers are
modelled as Nat (u8 arithmetic is taken modulo 256, matching the wrapping
semantics of release builds), embassy Instant and Duration values are
abstract Nat ticks, panics are modelled as Option.none, and the
asynchronous select races of the button engine are modelled by an explicit
timed semantics over a finite press signal.
-/

namespace EmbassyButton

/-- ButtonConfig from src/config.rs: four durations, in abstract ticks. -/
structure ButtonConfig where
  debounce : Nat
  multi_click_window : Nat
  long_press_time : Nat
  long_press_hold_interval : Nat
deriving Repr, DecidableEq

/-- ButtonEvent from src/lib.rs.  The MultipleClick payload is a u8 in the
source; the embedding stores the already-wrapped value (always < 256 on
runs of the embedded machine). -/
inductive ButtonEvent where
  | Click
  | DoubleClick
  | MultipleClick (count : Nat)
  | LongPressStart
  | LongPressHold
  | LongPressRelease
deriving Repr, DecidableEq

/-- ButtonState from src/lib.rs, with Instant fields as Nat ticks. -/
inductive ButtonState where
  | Idle
  | PressDebouncing (count : Nat) (start_time : Nat)
  | Pressed (start_time : Nat) (count : Nat)
  | ReleaseDebouncing (count : Nat) (press_start : Nat) (release_start : Nat)
  | WaitingForMultiClick (count : Nat) (last_release : Nat)
  | LongPress (start_time : Nat)
deriving Repr, DecidableEq

/-- The physical signal seen by the AsyncButtonDriver: a finite list of
half-open intervals (p, r) during which the button is held, i.e. the button
is pressed at time t iff p <= t < r for some listed interval.  Intervals
are listed in increasing order (see sigWF). -/
abbrev Sig := List (Nat × Nat)

/-- Well-formed signal: each interval is nonempty and ends strictly before
every later interval starts. -/
def sigWF : Sig → Bool
  | [] => true
  | (p, r) :: rest =>
    decide (p < r) && rest.all (fun q => decide (r < q.1)) && sigWF rest

/-- Resolution time of wait_for_press started at time t: the earliest
time >= t at which the signal is pressed (none = suspends forever). -/
def waitPress : Sig → Nat → Option Nat
  | [], _ => none
  | (p, r) :: rest, t => if t < r then some (max p t) else waitPress rest t

/-- Resolution time of wait_for_release started at time t: the earliest
time >= t at which the signal is released (always exists for a finite
signal). -/
def waitRelease : Sig → Nat → Nat
  | [], t => t
  | (p, r) :: rest, t => if t < p then t else if t < r then r else waitRelease rest t

/-- Result of one iteration of the loop body of Button::next_event. -/
inductive StepResult where
  | suspend
  | next (st : ButtonState) (t : Nat)
  | emit (ev : ButtonEvent) (st : ButtonState) (t : Nat)
deriving Repr, DecidableEq

/-- The event returned by the WaitingForMultiClick timeout arm for a
nonzero count (src/lib.rs lines 150-158). -/
def clickEvent : Nat → ButtonEvent
  | 1 => .Click
  | 2 => .DoubleClick
  | n => .MultipleClick n

/-- One iteration of the loop body of Button::next_event (src/lib.rs lines
73-184), at current time t.  A timer armed at deadline D fires at
max D t (an already-expired timer fires immediately); in every select the
edge-wait is the first argument and so wins a simultaneous resolution
(select polls its first future first). -/
def step (cfg : ButtonConfig) (sig : Sig) : ButtonState → Nat → StepResult
  | .Idle, t =>
    match waitPress sig t with
    | none => .suspend
    | some tp => .next (.PressDebouncing 0 tp) tp
  | .PressDebouncing count start_time, t =>
    let fire := max (start_time + cfg.debounce) t
    let tr := waitRelease sig t
    if tr ≤ fire then .next .Idle tr
    else .next (.Pressed fire ((count + 1) % 256)) fire
  | .Pressed start_time count, t =>
    let fire := max (start_time + cfg.long_press_time) t
    let tr := waitRelease sig t
    if tr ≤ fire then .next (.ReleaseDebouncing count start_time tr) tr
    else .emit .LongPressStart (.LongPress start_time) fire
  | .ReleaseDebouncing count press_start release_start, t =>
    let fire := max (release_start + cfg.debounce) t
    match waitPress sig t with
    | some tp =>
      if tp ≤ fire then .next (.Pressed press_start count) tp
      else .next (.WaitingForMultiClick count release_start) fire
    | none => .next (.WaitingForMultiClick count release_start) fire
  | .WaitingForMultiClick count last_release, t =>
    let fire := max (last_release + cfg.multi_click_window) t
    match waitPress sig t with
    | some tp =>
      if tp ≤ fire then .next (.PressDebouncing count tp) tp
      else if count = 0 then .next .Idle fire
      else .emit (clickEvent count) .Idle fire
    | none =>
      if count = 0 then .next .Idle fire
      else .emit (clickEvent count) .Idle fire
  | .LongPress start_time, t =>
    let nextHold := start_time + cfg.long_press_hold_interval
    let fire := max nextHold t
    let tr := waitRelease sig t
    if tr ≤ fire then .emit .LongPressRelease .Idle tr
    else .emit .LongPressHold (.LongPress nextHold) fire

/-- Button::next_event: iterate step until an event is returned.  Fuel
bounds the number of loop iterations; none means either a wait suspended
forever or the fuel ran out. -/
def nextEventFuel (cfg : ButtonConfig) (sig : Sig) :
    Nat → ButtonState → Nat → Option (ButtonEvent × ButtonState × Nat)
  | 0, _, _ => none
  | fuel + 1, st, t =>
    match step cfg sig st t with
    | .suspend => none
    | .next st2 t2 => nextEventFuel cfg sig fuel st2 t2
    | .emit ev st2 t2 => some (ev, st2, t2)

/-- Call next_event up to n times, collecting the returned events. -/
def runN (cfg : ButtonConfig) (sig : Sig) (fuel : Nat) :
    Nat → ButtonState → Nat → List ButtonEvent
  | 0, _, _ => []
  | n + 1, st, t =>
    match nextEventFuel cfg sig fuel st t with
    | none => []
    | some (ev, st2, t2) => ev :: runN cfg sig fuel n st2 t2

/-- One engine transition (event output ignored), as a partial function. -/
def advance (cfg : ButtonConfig) (sig : Sig) (x : ButtonState × Nat) :
    Option (ButtonState × Nat) :=
  match step cfg sig x.1 x.2 with
  | .suspend => none
  | .next st t => some (st, t)
  | .emit _ st t => some (st, t)

/-- Iterated engine transitions. -/
def advanceN (cfg : ButtonConfig) (sig : Sig) : Nat → (ButtonState × Nat) → Option (ButtonState × Nat)
  | 0, x => some x
  | n + 1, x =>
    match advance cfg sig x with
    | none => none
    | some y => advanceN cfg sig n y

/-- Reachability along engine transitions. -/
inductive Reaches (cfg : ButtonConfig) (sig : Sig) :
    (ButtonState × Nat) → (ButtonState × Nat) → Prop
  | refl (x) : Reaches cfg sig x x
  | tail {x y z} : Reaches cfg sig x y → advance cfg sig y = some z → Reaches cfg sig x z

/-- Release time of the last interval of a signal (0 for the empty signal). -/
def lastRel : Sig → Nat
  | [] => 0
  | (_, r) :: rest =>
    match rest with
    | [] => r
    | _ :: _ => lastRel rest

/-- Timing conditions of claim C1 on a list of press/release cycles:
each press is held longer than debounce and shorter than long_press_time,
and each next press comes after the release has been debounced but within
multi_click_window of the release. -/
def goodCycles (cfg : ButtonConfig) : Sig → Bool
  | [] => true
  | (p, r) :: rest =>
    decide (p + cfg.debounce < r) && decide (r < p + cfg.long_press_time) &&
    (match rest with
     | [] => true
     | (p2, _) :: _ =>
       decide (r + cfg.debounce < p2) && decide (p2 ≤ r + cfg.multi_click_window)) &&
    goodCycles cfg rest

/-- Configuration for the 256-cycle counterexamples: debounce 10,
multi_click_window 80, long_press_time 60, hold interval 100. -/
def cexCfg : ButtonConfig := ⟨10, 80, 60, 100⟩

/-- 256 press/release cycles satisfying the timing conditions of claim C1:
press number i is held during the interval from 100 i to 100 i + 50. -/
def cexSig : Sig := (List.range 256).map (fun i => (100 * i, 100 * i + 50))

/-- The 255-cycle tail of cexSig (cexSig = (0, 50) :: cexTail). -/
def cexTail : Sig :=
  (List.range 255).map (fun i => (100 * (i + 1), 100 * (i + 1) + 50))

/-! ### MedianFilter and RawFilter (src/adc.rs, mod filter) -/

/-- MedianFilter state: a fixed-size sample buffer and a write index. -/
structure MedianFilter where
  samples : List Nat
  index : Nat
deriving Repr, DecidableEq

/-- MedianFilter::<N>::new (src/adc.rs lines 51-59): asserts N > 0 (panic
modelled as none) and zero-initializes the window. -/
def MedianFilter.new (N : Nat) : Option MedianFilter :=
  if 0 < N then some ⟨List.replicate N 0, 0⟩ else none

/-- MedianFilter::process (src/adc.rs lines 62-75).  Samples are u16 in the
source; process only stores and sorts them, so they are modelled as Nat.
sort_unstable sorts ascending; on Nat any correct sort returns the unique
sorted permutation, modelled with insertionSort. -/
def MedianFilter.process (f : MedianFilter) (new_sample : Nat) :
    MedianFilter × Option Nat :=
  let samples := f.samples.set f.index new_sample
  let index := f.index + 1
  if index < samples.length then ({ samples := samples, index := index }, none)
  else
    let sorted := samples.insertionSort (· ≤ ·)
    ({ samples := sorted, index := 0 }, some (sorted.getD (samples.length / 2) 0))

/-- RawFilter::process (src/adc.rs lines 35-43): every sample is
immediately valid; the filter holds no state. -/
def rawFilterProcess : Unit → Nat → Unit × Option Nat := fun _ raw => ((), some raw)

/-- Feed a list of samples to a median filter, collecting emitted values. -/
def feedAll (f : MedianFilter) : List Nat → MedianFilter × List Nat
  | [] => (f, [])
  | x :: xs =>
    let (f2, out) := f.process x
    let (f3, outs) := feedAll f2 xs
    (f3, match out with | none => outs | some v => v :: outs)

/-- Sequential overwrite of a buffer starting at index i: the cumulative
effect of feeding samples into the window. -/
def writeSeq : List Nat → Nat → List Nat → List Nat
  | samples, _, [] => samples
  | samples, i, x :: xs => writeSeq (samples.set i x) (i + 1) xs

/-! ### Keymask-bit adapter (src/adc_keypad.rs) -/

/-- KeypadButton (src/adc_keypad.rs lines 122-126): single-bit mask and the
cached last-known full mask (both u32 in the source). -/
structure KeypadButton where
  key_mask : Nat
  last_known_mask : Nat
deriving Repr, DecidableEq

/-- KeypadButtonFactory::button (src/adc_keypad.rs lines 41-48): asserts
key_id < 32 (panic modelled as none); the fresh adapter caches
last_known_mask = 0.  Since key_id < 32, the mask 1 <<< key_id fits u32. -/
def KeypadButton.make (key_id : Nat) : Option KeypadButton :=
  if key_id < 32 then some ⟨1 <<< key_id, 0⟩ else none

/-- The message loop of KeypadButton::wait_for_press (src/adc_keypad.rs
lines 135-141) over a finite stream: consume messages, updating the cached
mask on every message, until the key bit is set; none = the stream ends
with the bit still clear (the wait stays suspended). -/
def keypadPressLoop : KeypadButton → List Nat → Option (KeypadButton × List Nat)
  | _, [] => none
  | b, m :: rest =>
    if m &&& b.key_mask ≠ 0 then some (⟨b.key_mask, m⟩, rest)
    else keypadPressLoop ⟨b.key_mask, m⟩ rest

/-- The message loop of KeypadButton::wait_for_release (src/adc_keypad.rs
lines 148-154). -/
def keypadReleaseLoop : KeypadButton → List Nat → Option (KeypadButton × List Nat)
  | _, [] => none
  | b, m :: rest =>
    if m &&& b.key_mask = 0 then some (⟨b.key_mask, m⟩, rest)
    else keypadReleaseLoop ⟨b.key_mask, m⟩ rest

/-- KeypadButton::wait_for_press (src/adc_keypad.rs lines 131-142): checks
the cached mask first and returns without consuming any message when the
bit is already set; result carries the updated adapter and the unconsumed
message suffix. -/
def waitForPressMask (b : KeypadButton) (msgs : List Nat) :
    Option (KeypadButton × List Nat) :=
  if b.last_known_mask &&& b.key_mask ≠ 0 then some (b, msgs)
  else keypadPressLoop b msgs

/-- KeypadButton::wait_for_release (src/adc_keypad.rs lines 144-155). -/
def waitForReleaseMask (b : KeypadButton) (msgs : List Nat) :
    Option (KeypadButton × List Nat) :=
  if b.last_known_mask &&& b.key_mask = 0 then some (b, msgs)
  else keypadReleaseLoop b msgs

/-! ### Matrix scanner (src/matrix.rs) -/

/-- KeyEvent (src/matrix.rs lines 13-17). -/
structure KeyEvent where
  row : Nat
  col : Nat
  pressed : Bool
deriving Repr, DecidableEq

/-- MatrixButton identity (src/matrix.rs lines 136-140). -/
structure MatrixButton where
  row : Nat
  col : Nat
deriving Repr, DecidableEq

/-- MatrixButtonFactory::button (src/matrix.rs lines 52-59): constructs the
adapter directly from the given (row, col); the source performs no bounds
check whatsoever (row and col are arbitrary u8 values). -/
def MatrixButton.make (row col : Nat) : MatrixButton := ⟨row, col⟩

/-- One cell update of MatrixDriver::run (src/matrix.rs lines 117-128):
read = none models an is_low error, absorbed by unwrap_or(false); returns
the new stored state for the cell and the published events. -/
def matrixScanCell (stored : Bool) (row col : Nat) (read : Option Bool) :
    Bool × List KeyEvent :=
  let is_pressed := read.getD false
  if is_pressed ≠ stored then (is_pressed, [⟨row, col, is_pressed⟩])
  else (stored, [])

/-! ### Scan-loop action traces (src/adc.rs and src/adc_keypad.rs) -/

/-- Observable actions of a hardware scan loop. -/
inductive ScanAction where
  | readOk (raw : Nat)
  | readErr
  | publish (v : Nat)
  | delay
deriving Repr, DecidableEq

/-- One iteration of AdcDriver::run (src/adc.rs lines 164-173): the read
result is none for a hardware error; proc is the filter process function
threaded through its state. -/
def adcRunCycle {σ : Type} (proc : σ → Nat → σ × Option Nat) (s : σ)
    (res : Option Nat) : σ × List ScanAction :=
  match res with
  | none => (s, [.readErr, .delay])
  | some raw =>
    match proc s raw with
    | (s2, none) => (s2, [.readOk raw, .delay])
    | (s2, some v) => (s2, [.readOk raw, .publish v, .delay])

/-- AdcDriver::run over a list of read results. -/
def adcRun {σ : Type} (proc : σ → Nat → σ × Option Nat) :
    σ → List (Option Nat) → σ × List ScanAction
  | s, [] => (s, [])
  | s, res :: rest =>
    let (s2, as1) := adcRunCycle proc s res
    let (s3, as2) := adcRun proc s2 rest
    (s3, as1 ++ as2)

/-- The inner value-acquisition loop of KeypadDriver::run (src/adc_keypad.rs
lines 104-111): a produced value breaks out of the loop before the
inter-sample delay; returns the final filter state, the action trace, and
on success the value together with the unconsumed reads. -/
def keypadAcquire {σ : Type} (proc : σ → Nat → σ × Option Nat) :
    σ → List (Option Nat) → σ × List ScanAction × Option (Nat × List (Option Nat))
  | s, [] => (s, [], none)
  | s, none :: rest =>
    let (s2, acts, out) := keypadAcquire proc s rest
    (s2, .readErr :: .delay :: acts, out)
  | s, some raw :: rest =>
    match proc s raw with
    | (s2, some v) => (s2, [.readOk raw], some (v, rest))
    | (s2, none) =>
      let (s3, acts, out) := keypadAcquire proc s2 rest
      (s3, .readOk raw :: .delay :: acts, out)

/-- KeypadDriver::run (src/adc_keypad.rs lines 101-119): n outer
iterations; last is the previously published mask (initially u32::MAX);
decode is the caller-supplied pure KeyDecoder. -/
def keypadRun {σ : Type} (proc : σ → Nat → σ × Option Nat) (decode : Nat → Nat) :
    Nat → σ → Nat → List (Option Nat) → σ × Nat × List ScanAction
  | 0, s, last, _ => (s, last, [])
  | n + 1, s, last, reads =>
    match keypadAcquire proc s reads with
    | (s2, acts, none) => (s2, last, acts)
    | (s2, acts, some (v, rest)) =>
      let mask := decode v
      let pubActs := if mask = last then [] else [ScanAction.publish mask]
      let (s3, last3, acts3) := keypadRun proc decode n s2 mask rest
      (s3, last3, acts ++ pubActs ++ acts3)

/-- After every read action, a delay action occurs before any later read
(the boolean argument records whether a read is pending a delay). -/
def delaySeparated : Bool → List ScanAction → Bool
  | _, [] => true
  | needDelay, a :: rest =>
    match a with
    | .delay => delaySeparated false rest
    | .readOk _ => !needDelay && delaySeparated true rest
    | .readErr => !needDelay && delaySeparated true rest
    | .publish _ => delaySeparated needDelay rest

/-- Every read action is immediately followed by a delay action. -/
def readsDelayed : List ScanAction → Bool
  | [] => true
  | .readOk _ :: .delay :: rest => readsDelayed rest
  | .readErr :: .delay :: rest => readsDelayed rest
  | .publish _ :: rest => readsDelayed rest
  | .delay :: rest => readsDelayed rest
  | _ => false

/-! ### Basic properties of the signal wait functions -/

theorem waitPress_ge : ∀ (sig : Sig) (t v : Nat), waitPress sig t = some v → t ≤ v := by
  intro sig
  induction sig with
  | nil => intro t v h; simp [waitPress] at h
  | cons iv rest ih =>
    intro t v h
    obtain ⟨p, r⟩ := iv
    simp only [waitPress] at h
    split at h
    · simp only [Option.some.injEq] at h; omega
    · exact ih t v h

theorem waitRelease_ge : ∀ (sig : Sig) (t : Nat), t ≤ waitRelease sig t := by
  intro sig
  induction sig with
  | nil => intro t; simp [waitRelease]
  | cons iv rest ih =>
    intro t
    obtain ⟨p, r⟩ := iv
    simp only [waitRelease]
    by_cases h1 : t < p
    · simp [h1]
    · simp only [h1, if_false]
      by_cases h2 : t < r
      · simp [h2]; omega
      · simp only [h2, if_false]; exact ih t

theorem waitPress_none_of_le : ∀ (sig : Sig) (t : Nat),
    (∀ iv ∈ sig, iv.2 ≤ t) → waitPress sig t = none := by
  intro sig
  induction sig with
  | nil => intro t _; rfl
  | cons iv rest ih =>
    intro t h
    obtain ⟨p, r⟩ := iv
    have hr : r ≤ t := h (p, r) (by simp)
    simp only [waitPress]
    rw [if_neg (by omega)]
    exact ih t (fun q hq => h q (by simp [hq]))

theorem waitPress_in {p r : Nat} (rest : Sig) {t : Nat} (h : t < r) :
    waitPress ((p, r) :: rest) t = some (max p t) := by
  simp only [waitPress]; rw [if_pos h]

theorem waitPress_skip {p r : Nat} (rest : Sig) {t : Nat} (h : r ≤ t) :
    waitPress ((p, r) :: rest) t = waitPress rest t := by
  simp only [waitPress]; rw [if_neg (by omega)]

theorem waitRelease_in {p r : Nat} (rest : Sig) {t : Nat} (h1 : p ≤ t) (h2 : t < r) :
    waitRelease ((p, r) :: rest) t = r := by
  simp only [waitRelease]
  by_cases h : t < p
  · omega
  · rw [if_neg h, if_pos h2]

theorem waitRelease_skip {p r : Nat} (rest : Sig) {t : Nat} (hpr : p < r) (h : r ≤ t) :
    waitRelease ((p, r) :: rest) t = waitRelease rest t := by
  simp only [waitRelease]; rw [if_neg (by omega), if_neg (by omega)]

theorem sigWF_cons {p r : Nat} {rest : Sig} :
    sigWF ((p, r) :: rest) = true ↔
      p < r ∧ (∀ q ∈ rest, r < q.1) ∧ sigWF rest = true := by
  simp [sigWF, List.all_eq_true, and_assoc]

theorem ends_le_lastRel : ∀ (sig : Sig), sigWF sig = true →
    ∀ iv ∈ sig, iv.2 ≤ lastRel sig := by
  intro sig
  induction sig with
  | nil => simp
  | cons hd rest ih =>
    obtain ⟨p, r⟩ := hd
    intro hwf iv hiv
    rcases sigWF_cons.mp hwf with ⟨hpr, hlt, hwfr⟩
    cases rest with
    | nil =>
      simp only [List.mem_singleton] at hiv
      subst hiv
      simp [lastRel]
    | cons hd2 rest2 =>
      obtain ⟨p2, r2⟩ := hd2
      have hlast : lastRel ((p, r) :: (p2, r2) :: rest2) = lastRel ((p2, r2) :: rest2) := rfl
      rw [hlast]
      rcases List.mem_cons.mp hiv with heq | hmem
      · subst heq
        have h1 : r < p2 := hlt (p2, r2) (by simp)
        have h2 : p2 < r2 := (sigWF_cons.mp hwfr).1
        have h3 : r2 ≤ lastRel ((p2, r2) :: rest2) := ih hwfr (p2, r2) (by simp)
        simp only
        omega
      · exact ih hwfr iv hmem

/-! ### Basic properties of the engine step function -/

theorem nextEventFuel_succ (cfg : ButtonConfig) (sig : Sig) (fuel : Nat)
    (st : ButtonState) (t : Nat) :
    nextEventFuel cfg sig (fuel + 1) st t =
      (match step cfg sig st t with
       | .suspend => none
       | .next st2 t2 => nextEventFuel cfg sig fuel st2 t2
       | .emit ev st2 t2 => some (ev, st2, t2)) := rfl

theorem runN_succ (cfg : ButtonConfig) (sig : Sig) (fuel n : Nat)
    (st : ButtonState) (t : Nat) :
    runN cfg sig fuel (n + 1) st t =
      (match nextEventFuel cfg sig fuel st t with
       | none => []
       | some (ev, st2, t2) => ev :: runN cfg sig fuel n st2 t2) := rfl

theorem step_next_le {cfg : ButtonConfig} {sig : Sig} {st : ButtonState}
    {t : Nat} {st2 : ButtonState} {t2 : Nat}
    (h : step cfg sig st t = .next st2 t2) : t ≤ t2 := by
  cases st with
  | Idle =>
    cases hwp : waitPress sig t with
    | none => simp only [step, hwp] at h; exact absurd h (by simp)
    | some tp =>
      have htp := waitPress_ge sig t tp hwp
      simp only [step, hwp, StepResult.next.injEq] at h
      omega
  | PressDebouncing c s =>
    have hwr := waitRelease_ge sig t
    simp only [step] at h
    split at h <;> simp only [StepResult.next.injEq] at h <;> omega
  | Pressed s c =>
    have hwr := waitRelease_ge sig t
    simp only [step] at h
    split at h
    · simp only [StepResult.next.injEq] at h; omega
    · exact absurd h (by simp)
  | ReleaseDebouncing c ps rs =>
    cases hwp : waitPress sig t with
    | none =>
      simp only [step, hwp, StepResult.next.injEq] at h
      omega
    | some tp =>
      have htp := waitPress_ge sig t tp hwp
      simp only [step, hwp] at h
      split at h <;> simp only [StepResult.next.injEq] at h <;> omega
  | WaitingForMultiClick c lr =>
    cases hwp : waitPress sig t with
    | none =>
      simp only [step, hwp] at h
      split at h
      · simp only [StepResult.next.injEq] at h; omega
      · exact absurd h (by simp)
    | some tp =>
      have htp := waitPress_ge sig t tp hwp
      simp only [step, hwp] at h
      split at h
      · simp only [StepResult.next.injEq] at h; omega
      · split at h
        · simp only [StepResult.next.injEq] at h; omega
        · exact absurd h (by simp)
  | LongPress s =>
    simp only [step] at h
    split at h <;> exact absurd h (by simp)

theorem step_emit_le {cfg : ButtonConfig} {sig : Sig} {st : ButtonState}
    {t : Nat} {ev : ButtonEvent} {st2 : ButtonState} {t2 : Nat}
    (h : step cfg sig st t = .emit ev st2 t2) : t ≤ t2 := by
  cases st with
  | Idle =>
    cases hwp : waitPress sig t with
    | none => simp only [step, hwp] at h; exact absurd h (by simp)
    | some tp => simp only [step, hwp] at h; exact absurd h (by simp)
  | PressDebouncing c s =>
    simp only [step] at h
    split at h <;> exact absurd h (by simp)
  | Pressed s c =>
    simp only [step] at h
    split at h
    · exact absurd h (by simp)
    · simp only [StepResult.emit.injEq] at h; omega
  | ReleaseDebouncing c ps rs =>
    cases hwp : waitPress sig t with
    | none => simp only [step, hwp] at h; exact absurd h (by simp)
    | some tp =>
      simp only [step, hwp] at h
      split at h <;> exact absurd h (by simp)
  | WaitingForMultiClick c lr =>
    cases hwp : waitPress sig t with
    | none =>
      simp only [step, hwp] at h
      split at h
      · exact absurd h (by simp)
      · simp only [StepResult.emit.injEq] at h; omega
    | some tp =>
      simp only [step, hwp] at h
      split at h
      · exact absurd h (by simp)
      · split at h
        · exact absurd h (by simp)
        · simp only [StepResult.emit.injEq] at h; omega
  | LongPress s =>
    have hwr := waitRelease_ge sig t
    simp only [step] at h
    split at h <;> simp only [StepResult.emit.injEq] at h <;> omega

theorem step_congr {cfg : ButtonConfig} {p r : Nat} {rest : Sig} (hpr : p < r)
    {st : ButtonState} {t : Nat} (h : r ≤ t) :
    step cfg ((p, r) :: rest) st t = step cfg rest st t := by
  cases st <;>
    simp only [step, waitPress_skip rest h, waitRelease_skip rest hpr h]

theorem nextEventFuel_congr {cfg : ButtonConfig} {p r : Nat} {rest : Sig}
    (hpr : p < r) :
    ∀ (fuel : Nat) (st : ButtonState) (t : Nat), r ≤ t →
      nextEventFuel cfg ((p, r) :: rest) fuel st t =
        nextEventFuel cfg rest fuel st t := by
  intro fuel
  induction fuel with
  | zero => intro st t _; rfl
  | succ f ih =>
    intro st t h
    rw [nextEventFuel_succ, nextEventFuel_succ, step_congr hpr h]
    cases hs : step cfg rest st t with
    | suspend => rfl
    | next st2 t2 =>
      show nextEventFuel cfg ((p, r) :: rest) f st2 t2 =
        nextEventFuel cfg rest f st2 t2
      exact ih st2 t2 (le_trans h (step_next_le hs))
    | emit ev st2 t2 => rfl

theorem idle_suspended {cfg : ButtonConfig} {sig : Sig} {t : Nat}
    (h : waitPress sig t = none) :
    ∀ fuel, nextEventFuel cfg sig fuel .Idle t = none := by
  intro fuel
  cases fuel with
  | zero => rfl
  | succ f => rw [nextEventFuel_succ]; simp [step, h]

theorem runN_stuck {cfg : ButtonConfig} {sig : Sig} {t : Nat}
    (h : waitPress sig t = none) :
    ∀ (n fuel : Nat), runN cfg sig fuel n .Idle t = [] := by
  intro n fuel
  cases n with
  | zero => rfl
  | succ m => rw [runN_succ, idle_suspended h fuel]

/-! ### Claim C3: bounce rejection -/

/-- On a well-formed signal whose every press pulse is shorter than db,
the release following any observed press edge arrives within db of it. -/
theorem short_bounce_release (db : Nat) : ∀ (sig : Sig), sigWF sig = true →
    (∀ iv ∈ sig, iv.2 < iv.1 + db) → ∀ (t v : Nat), waitPress sig t = some v →
    waitRelease sig v < v + db := by
  intro sig
  induction sig with
  | nil => intro _ _ t v h; simp [waitPress] at h
  | cons iv rest ih =>
    obtain ⟨p, r⟩ := iv
    intro hwf hshort t v h
    rcases sigWF_cons.mp hwf with ⟨hpr, _, hwfr⟩
    have hr : r < p + db := hshort (p, r) (by simp)
    simp only [waitPress] at h
    split at h
    · rename_i htr
      simp only [Option.some.injEq] at h
      rw [waitRelease_in rest (by omega) (by omega)]
      omega
    · rename_i htr
      have hv := waitPress_ge rest t v h
      rw [waitRelease_skip rest hpr (by omega)]
      exact ih hwfr (fun q hq => hshort q (by simp [hq])) t v h

/-- All-bounce signals never let the engine leave the Idle/PressDebouncing
bounce loop, at any fuel. -/
theorem bounce_no_event (cfg : ButtonConfig) (sig : Sig)
    (hwf : sigWF sig = true)
    (hshort : ∀ iv ∈ sig, iv.2 < iv.1 + cfg.debounce) :
    ∀ fuel : Nat,
      (∀ t, nextEventFuel cfg sig fuel .Idle t = none) ∧
      (∀ t v, waitPress sig t = some v →
        nextEventFuel cfg sig fuel (.PressDebouncing 0 v) v = none) := by
  intro fuel
  induction fuel with
  | zero => exact ⟨fun _ => rfl, fun _ _ _ => rfl⟩
  | succ f ih =>
    constructor
    · intro t
      rw [nextEventFuel_succ]
      cases hwp : waitPress sig t with
      | none => simp [step, hwp]
      | some v =>
        have hstep : step cfg sig .Idle t = .next (.PressDebouncing 0 v) v := by
          simp [step, hwp]
        rw [hstep]
        exact ih.2 t v hwp
    · intro t v hwp
      rw [nextEventFuel_succ]
      have hbounce := short_bounce_release cfg.debounce sig hwf hshort t v hwp
      have hstep : step cfg sig (.PressDebouncing 0 v) v =
          .next .Idle (waitRelease sig v) := by
        simp only [step]
        rw [if_pos (by omega)]
      rw [hstep]
      exact ih.1 (waitRelease sig v)

/-! ### Claim C1: click counting -/

theorem nextEventFuel_step_next {cfg : ButtonConfig} {sig : Sig}
    {st : ButtonState} {t : Nat} {st2 : ButtonState} {t2 fuel : Nat}
    (h : step cfg sig st t = .next st2 t2) :
    nextEventFuel cfg sig (fuel + 1) st t = nextEventFuel cfg sig fuel st2 t2 := by
  rw [nextEventFuel_succ, h]

theorem nextEventFuel_step_emit {cfg : ButtonConfig} {sig : Sig}
    {st : ButtonState} {t : Nat} {ev : ButtonEvent} {st2 : ButtonState}
    {t2 fuel : Nat} (h : step cfg sig st t = .emit ev st2 t2) :
    nextEventFuel cfg sig (fuel + 1) st t = some (ev, st2, t2) := by
  rw [nextEventFuel_succ, h]

theorem nextEventFuel_add4_emit {cfg : ButtonConfig} {sig : Sig}
    {st : ButtonState} {t : Nat} {s1 : ButtonState} {t1 : Nat}
    {s2 : ButtonState} {t2 : Nat} {s3 : ButtonState} {t3 : Nat}
    {ev : ButtonEvent} {s4 : ButtonState} {t4 : Nat} (fuel : Nat)
    (h1 : step cfg sig st t = .next s1 t1)
    (h2 : step cfg sig s1 t1 = .next s2 t2)
    (h3 : step cfg sig s2 t2 = .next s3 t3)
    (h4 : step cfg sig s3 t3 = .emit ev s4 t4) :
    nextEventFuel cfg sig (fuel + 4) st t = some (ev, s4, t4) := by
  rw [show fuel + 4 = fuel + 3 + 1 by omega, nextEventFuel_step_next h1,
    show fuel + 3 = fuel + 2 + 1 by omega, nextEventFuel_step_next h2,
    show fuel + 2 = fuel + 1 + 1 by omega, nextEventFuel_step_next h3,
    nextEventFuel_step_emit h4]

theorem nextEventFuel_add4_next {cfg : ButtonConfig} {sig : Sig}
    {st : ButtonState} {t : Nat} {s1 : ButtonState} {t1 : Nat}
    {s2 : ButtonState} {t2 : Nat} {s3 : ButtonState} {t3 : Nat}
    {s4 : ButtonState} {t4 : Nat} (fuel : Nat)
    (h1 : step cfg sig st t = .next s1 t1)
    (h2 : step cfg sig s1 t1 = .next s2 t2)
    (h3 : step cfg sig s2 t2 = .next s3 t3)
    (h4 : step cfg sig s3 t3 = .next s4 t4) :
    nextEventFuel cfg sig (fuel + 4) st t = nextEventFuel cfg sig fuel s4 t4 := by
  rw [show fuel + 4 = fuel + 3 + 1 by omega, nextEventFuel_step_next h1,
    show fuel + 3 = fuel + 2 + 1 by omega, nextEventFuel_step_next h2,
    show fuel + 2 = fuel + 1 + 1 by omega, nextEventFuel_step_next h3,
    nextEventFuel_step_next h4]

theorem goodCycles_one {cfg : ButtonConfig} {p r : Nat} :
    goodCycles cfg [(p, r)] = true ↔
      p + cfg.debounce < r ∧ r < p + cfg.long_press_time := by
  simp [goodCycles]

theorem goodCycles_cons2 {cfg : ButtonConfig} {p r p2 r2 : Nat} {rest : Sig} :
    goodCycles cfg ((p, r) :: (p2, r2) :: rest) = true ↔
      p + cfg.debounce < r ∧ r < p + cfg.long_press_time ∧
      r + cfg.debounce < p2 ∧ p2 ≤ r + cfg.multi_click_window ∧
      goodCycles cfg ((p2, r2) :: rest) = true := by
  simp [goodCycles, and_assoc]

theorem clickEvent_ge3 (k : Nat) : clickEvent (k + 3) = .MultipleClick (k + 3) := rfl

/-- Running the engine from a debouncing press at the start of a list of
well-timed press/release cycles finalizes the whole list into a single
click event counting all cycles (no u8 wrap-around: total count at most
255). -/
theorem run_cycles (cfg : ButtonConfig) :
    ∀ (rest : Sig) (p r c : Nat),
      goodCycles cfg ((p, r) :: rest) = true →
      sigWF ((p, r) :: rest) = true →
      c + rest.length + 1 ≤ 255 →
      ∃ tEnd, lastRel ((p, r) :: rest) ≤ tEnd ∧
        nextEventFuel cfg ((p, r) :: rest) (4 * (rest.length + 1))
          (.PressDebouncing c p) p =
          some (clickEvent (c + rest.length + 1), .Idle, tEnd) := by
  intro rest
  induction rest with
  | nil =>
    intro p r c hg hw hc
    rcases goodCycles_one.mp hg with ⟨h1, h2⟩
    rcases sigWF_cons.mp hw with ⟨hpr, _, _⟩
    have hs1 : step cfg [(p, r)] (.PressDebouncing c p) p =
        .next (.Pressed (p + cfg.debounce) (c + 1)) (p + cfg.debounce) := by
      simp only [step]
      rw [waitRelease_in [] (Nat.le_refl p) hpr,
        max_eq_left (Nat.le_add_right p cfg.debounce),
        if_neg (by omega), Nat.mod_eq_of_lt (by omega)]
    have hs2 : step cfg [(p, r)] (.Pressed (p + cfg.debounce) (c + 1))
        (p + cfg.debounce) =
        .next (.ReleaseDebouncing (c + 1) (p + cfg.debounce) r) r := by
      simp only [step]
      rw [waitRelease_in [] (by omega) (by omega),
        max_eq_left (Nat.le_add_right _ _), if_pos (by omega)]
    have hs3 : step cfg [(p, r)] (.ReleaseDebouncing (c + 1) (p + cfg.debounce) r) r =
        .next (.WaitingForMultiClick (c + 1) r) (r + cfg.debounce) := by
      simp only [step]
      rw [waitPress_skip [] (Nat.le_refl r)]
      simp only [waitPress]
      rw [max_eq_left (Nat.le_add_right r cfg.debounce)]
    have hs4 : step cfg [(p, r)] (.WaitingForMultiClick (c + 1) r) (r + cfg.debounce) =
        .emit (clickEvent (c + 1)) .Idle
          (max (r + cfg.multi_click_window) (r + cfg.debounce)) := by
      simp only [step]
      rw [waitPress_skip [] (Nat.le_add_right r cfg.debounce)]
      simp only [waitPress]
      rw [if_neg (by omega)]
    refine ⟨max (r + cfg.multi_click_window) (r + cfg.debounce), ?_, ?_⟩
    · simp only [lastRel]; omega
    · rw [show 4 * (([] : Sig).length + 1) = 0 + 4 by simp,
        nextEventFuel_add4_emit 0 hs1 hs2 hs3 hs4]
      norm_num
  | cons iv2 rest2 ih =>
    obtain ⟨p2, r2⟩ := iv2
    intro p r c hg hw hc
    rcases goodCycles_cons2.mp hg with ⟨h1, h2, h3, h4, hgr⟩
    rcases sigWF_cons.mp hw with ⟨hpr, hlt, hwr⟩
    have hp2r2 : p2 < r2 := (sigWF_cons.mp hwr).1
    have hrp2 : r < p2 := hlt (p2, r2) (by simp)
    have hs1 : step cfg ((p, r) :: (p2, r2) :: rest2) (.PressDebouncing c p) p =
        .next (.Pressed (p + cfg.debounce) (c + 1)) (p + cfg.debounce) := by
      simp only [step]
      rw [waitRelease_in ((p2, r2) :: rest2) (Nat.le_refl p) hpr,
        max_eq_left (Nat.le_add_right p cfg.debounce),
        if_neg (by omega), Nat.mod_eq_of_lt (by simp at hc; omega)]
    have hs2 : step cfg ((p, r) :: (p2, r2) :: rest2)
        (.Pressed (p + cfg.debounce) (c + 1)) (p + cfg.debounce) =
        .next (.ReleaseDebouncing (c + 1) (p + cfg.debounce) r) r := by
      simp only [step]
      rw [waitRelease_in ((p2, r2) :: rest2) (by omega) (by omega),
        max_eq_left (Nat.le_add_right _ _), if_pos (by omega)]
    have hwp3 : waitPress ((p, r) :: (p2, r2) :: rest2) r = some p2 := by
      rw [waitPress_skip ((p2, r2) :: rest2) (Nat.le_refl r),
        waitPress_in rest2 (show r < r2 by omega)]
      congr 1
      omega
    have hs3 : step cfg ((p, r) :: (p2, r2) :: rest2)
        (.ReleaseDebouncing (c + 1) (p + cfg.debounce) r) r =
        .next (.WaitingForMultiClick (c + 1) r) (r + cfg.debounce) := by
      simp only [step, hwp3]
      rw [max_eq_left (Nat.le_add_right r cfg.debounce), if_neg (by omega)]
    have hwp4 : waitPress ((p, r) :: (p2, r2) :: rest2) (r + cfg.debounce) = some p2 := by
      rw [waitPress_skip ((p2, r2) :: rest2) (Nat.le_add_right r cfg.debounce),
        waitPress_in rest2 (show r + cfg.debounce < r2 by omega)]
      congr 1
      omega
    have hs4 : step cfg ((p, r) :: (p2, r2) :: rest2)
        (.WaitingForMultiClick (c + 1) r) (r + cfg.debounce) =
        .next (.PressDebouncing (c + 1) p2) p2 := by
      simp only [step, hwp4]
      rw [if_pos (le_trans h4 (Nat.le_max_left _ _))]
    obtain ⟨tEnd, hEnd, hrun⟩ := ih p2 r2 (c + 1) hgr hwr (by simp at hc ⊢; omega)
    refine ⟨tEnd, ?_, ?_⟩
    · exact le_trans (le_of_eq (rfl :
        lastRel ((p, r) :: (p2, r2) :: rest2) = lastRel ((p2, r2) :: rest2))) hEnd
    · rw [show 4 * (((p2, r2) :: rest2).length + 1) = 4 * (rest2.length + 1) + 4 by
        simp [List.length]; omega,
        nextEventFuel_add4_next (4 * (rest2.length + 1)) hs1 hs2 hs3 hs4,
        nextEventFuel_congr hpr (4 * (rest2.length + 1))
          (.PressDebouncing (c + 1) p2) p2 (by omega),
        hrun]
      have : c + 1 + rest2.length + 1 = c + ((p2, r2) :: rest2).length + 1 := by
        simp only [List.length_cons]
        omega
      rw [this]

/-- Claim C1 (amended: 1 <= k <= 255).  For k press/release cycles through
next_event, each press held longer than debounce but shorter than
long_press_time, each confirmed release followed by the next press within
multi_click_window, and the final release followed by silence exceeding the
window, the engine yields exactly one event: Click for k = 1, DoubleClick
for k = 2, MultipleClick k for k >= 3 — provided k <= 255 (the u8 click
counter wraps at 256, see the counterexample). -/
theorem c1_click_counting (cfg : ButtonConfig) (p r : Nat) (rest : Sig)
    (hg : goodCycles cfg ((p, r) :: rest) = true)
    (hw : sigWF ((p, r) :: rest) = true)
    (hlen : ((p, r) :: rest).length ≤ 255)
    (t0 : Nat) (ht0 : t0 ≤ p) (n : Nat) (hn : 1 ≤ n) :
    runN cfg ((p, r) :: rest) (4 * ((p, r) :: rest).length + 1) n .Idle t0 =
      [if ((p, r) :: rest).length = 1 then ButtonEvent.Click
       else if ((p, r) :: rest).length = 2 then ButtonEvent.DoubleClick
       else ButtonEvent.MultipleClick ((p, r) :: rest).length] := by
  have hpr : p < r := (sigWF_cons.mp hw).1
  have hwp0 : waitPress ((p, r) :: rest) t0 = some p := by
    rw [waitPress_in rest (show t0 < r by omega)]
    congr 1
    omega
  have hs0 : step cfg ((p, r) :: rest) .Idle t0 = .next (.PressDebouncing 0 p) p := by
    simp only [step, hwp0]
  obtain ⟨tEnd, hEnd, hrun⟩ := run_cycles cfg rest p r 0 hg hw
    (by simp only [List.length_cons] at hlen; omega)
  obtain ⟨m, rfl⟩ : ∃ m, n = m + 1 := ⟨n - 1, by omega⟩
  rw [runN_succ]
  have hne : nextEventFuel cfg ((p, r) :: rest) (4 * ((p, r) :: rest).length + 1)
      .Idle t0 = some (clickEvent (0 + rest.length + 1), .Idle, tEnd) := by
    rw [nextEventFuel_step_next hs0,
      show 4 * ((p, r) :: rest).length = 4 * (rest.length + 1) by
        simp [List.length_cons]]
    exact hrun
  rw [hne]
  show clickEvent (0 + rest.length + 1) ::
    runN cfg ((p, r) :: rest) (4 * ((p, r) :: rest).length + 1) m .Idle tEnd = _
  have hstuck : runN cfg ((p, r) :: rest)
      (4 * ((p, r) :: rest).length + 1) m .Idle tEnd = [] := by
    apply runN_stuck
    apply waitPress_none_of_le
    intro iv hiv
    exact le_trans (ends_le_lastRel _ hw iv hiv) hEnd
  rw [hstuck]
  rcases rest with _ | ⟨iv1, rest1⟩
  · simp [clickEvent]
  · rcases rest1 with _ | ⟨iv2, rest2⟩
    · simp [clickEvent]
    · simp only [List.length_cons, Nat.zero_add]
      rw [show rest2.length + 1 + 1 + 1 = rest2.length + 3 by omega, clickEvent_ge3]
      simp

theorem nef_none_step {cfg : ButtonConfig} {sig : Sig} {st : ButtonState}
    {t : Nat} {st2 : ButtonState} {t2 : Nat}
    (h : step cfg sig st t = .next st2 t2)
    (hrec : ∀ fuel, nextEventFuel cfg sig fuel st2 t2 = none) :
    ∀ fuel, nextEventFuel cfg sig fuel st t = none := by
  intro fuel
  cases fuel with
  | zero => rfl
  | succ f => rw [nextEventFuel_step_next h]; exact hrec f

/-- The wrap-around case of run_cycles: when the total count of confirmed
presses is a multiple of 256, the u8 counter wraps to 0, the finalize arm
emits nothing, and next_event never returns, at any fuel. -/
theorem run_cycles_wrap (cfg : ButtonConfig) :
    ∀ (rest : Sig) (p r c : Nat),
      goodCycles cfg ((p, r) :: rest) = true →
      sigWF ((p, r) :: rest) = true →
      (c + rest.length + 1) % 256 = 0 →
      ∀ fuel,
        nextEventFuel cfg ((p, r) :: rest) fuel (.PressDebouncing c p) p = none := by
  intro rest
  induction rest with
  | nil =>
    intro p r c hg hw hc
    rcases goodCycles_one.mp hg with ⟨h1, h2⟩
    rcases sigWF_cons.mp hw with ⟨hpr, _, _⟩
    simp only [List.length_nil, Nat.add_zero] at hc
    have hs1 : step cfg [(p, r)] (.PressDebouncing c p) p =
        .next (.Pressed (p + cfg.debounce) ((c + 1) % 256)) (p + cfg.debounce) := by
      simp only [step]
      rw [waitRelease_in [] (Nat.le_refl p) hpr,
        max_eq_left (Nat.le_add_right p cfg.debounce), if_neg (by omega)]
    have hs2 : step cfg [(p, r)] (.Pressed (p + cfg.debounce) ((c + 1) % 256))
        (p + cfg.debounce) =
        .next (.ReleaseDebouncing ((c + 1) % 256) (p + cfg.debounce) r) r := by
      simp only [step]
      rw [waitRelease_in [] (by omega) (by omega),
        max_eq_left (Nat.le_add_right _ _), if_pos (by omega)]
    have hs3 : step cfg [(p, r)]
        (.ReleaseDebouncing ((c + 1) % 256) (p + cfg.debounce) r) r =
        .next (.WaitingForMultiClick ((c + 1) % 256) r) (r + cfg.debounce) := by
      simp only [step]
      rw [waitPress_skip [] (Nat.le_refl r)]
      simp only [waitPress]
      rw [max_eq_left (Nat.le_add_right r cfg.debounce)]
    have hs4 : step cfg [(p, r)] (.WaitingForMultiClick ((c + 1) % 256) r)
        (r + cfg.debounce) =
        .next .Idle (max (r + cfg.multi_click_window) (r + cfg.debounce)) := by
      simp only [step]
      rw [waitPress_skip [] (Nat.le_add_right r cfg.debounce)]
      simp only [waitPress]
      rw [if_pos hc]
    refine nef_none_step hs1 (nef_none_step hs2 (nef_none_step hs3
      (nef_none_step hs4 (idle_suspended (waitPress_none_of_le [(p, r)] _ ?_)))))
    intro iv hiv
    simp only [List.mem_singleton] at hiv
    subst hiv
    simp only
    omega
  | cons iv2 rest2 ih =>
    obtain ⟨p2, r2⟩ := iv2
    intro p r c hg hw hc
    rcases goodCycles_cons2.mp hg with ⟨h1, h2, h3, h4, hgr⟩
    rcases sigWF_cons.mp hw with ⟨hpr, hlt, hwr⟩
    have hp2r2 : p2 < r2 := (sigWF_cons.mp hwr).1
    have hrp2 : r < p2 := hlt (p2, r2) (by simp)
    simp only [List.length_cons] at hc
    have hs1 : step cfg ((p, r) :: (p2, r2) :: rest2) (.PressDebouncing c p) p =
        .next (.Pressed (p + cfg.debounce) ((c + 1) % 256)) (p + cfg.debounce) := by
      simp only [step]
      rw [waitRelease_in ((p2, r2) :: rest2) (Nat.le_refl p) hpr,
        max_eq_left (Nat.le_add_right p cfg.debounce), if_neg (by omega)]
    have hs2 : step cfg ((p, r) :: (p2, r2) :: rest2)
        (.Pressed (p + cfg.debounce) ((c + 1) % 256)) (p + cfg.debounce) =
        .next (.ReleaseDebouncing ((c + 1) % 256) (p + cfg.debounce) r) r := by
      simp only [step]
      rw [waitRelease_in ((p2, r2) :: rest2) (by omega) (by omega),
        max_eq_left (Nat.le_add_right _ _), if_pos (by omega)]
    have hwp3 : waitPress ((p, r) :: (p2, r2) :: rest2) r = some p2 := by
      rw [waitPress_skip ((p2, r2) :: rest2) (Nat.le_refl r),
        waitPress_in rest2 (show r < r2 by omega)]
      congr 1
      omega
    have hs3 : step cfg ((p, r) :: (p2, r2) :: rest2)
        (.ReleaseDebouncing ((c + 1) % 256) (p + cfg.debounce) r) r =
        .next (.WaitingForMultiClick ((c + 1) % 256) r) (r + cfg.debounce) := by
      simp only [step, hwp3]
      rw [max_eq_left (Nat.le_add_right r cfg.debounce), if_neg (by omega)]
    have hwp4 : waitPress ((p, r) :: (p2, r2) :: rest2) (r + cfg.debounce) =
        some p2 := by
      rw [waitPress_skip ((p2, r2) :: rest2) (Nat.le_add_right r cfg.debounce),
        waitPress_in rest2 (show r + cfg.debounce < r2 by omega)]
      congr 1
      omega
    have hs4 : step cfg ((p, r) :: (p2, r2) :: rest2)
        (.WaitingForMultiClick ((c + 1) % 256) r) (r + cfg.debounce) =
        .next (.PressDebouncing ((c + 1) % 256) p2) p2 := by
      simp only [step, hwp4]
      rw [if_pos (le_trans h4 (Nat.le_max_left _ _))]
    refine nef_none_step hs1 (nef_none_step hs2 (nef_none_step hs3
      (nef_none_step hs4 (fun fuel => ?_))))
    rw [nextEventFuel_congr hpr fuel (.PressDebouncing ((c + 1) % 256) p2) p2
      (by omega)]
    exact ih p2 r2 ((c + 1) % 256) hgr hwr (by omega) fuel

set_option maxRecDepth 40000 in
set_option maxHeartbeats 3000000 in
/-- Counterexample to claim C1 as stated.  cexSig is k = 256 press/release
cycles that satisfy every timing premise of the claim (goodCycles, under
cexCfg), yet next_event returns no event at all — after the 256th confirmed
press the u8 click counter has wrapped to 0, the WaitingForMultiClick
timeout arm emits nothing, and the engine suspends in Idle.  The claim
demands exactly one MultipleClick event with count 256 (not even
representable in u8). -/
theorem c1_counterexample_k256 :
    cexSig.length = 256 ∧ goodCycles cexCfg cexSig = true ∧
    sigWF cexSig = true ∧
    nextEventFuel cexCfg cexSig 1100 .Idle 0 = none := by
  refine ⟨by decide, by decide, by decide, ?_⟩
  have hdec : cexSig = (0, 50) :: cexTail := by decide
  have hs0 : step cexCfg cexSig .Idle 0 = .next (.PressDebouncing 0 0) 0 := by
    decide
  have hall : ∀ fuel, nextEventFuel cexCfg cexSig fuel .Idle 0 = none := by
    apply nef_none_step hs0
    intro fuel
    rw [hdec]
    exact run_cycles_wrap cexCfg cexTail 0 50 0 (by decide) (by decide)
      (by decide) fuel
  exact hall 1100

/-- Witness for C1 at three concrete cycles: the engine yields exactly
MultipleClick 3. -/
theorem c1_witness :
    runN ⟨20, 250, 500, 100⟩ [(0, 100), (200, 300), (400, 500)] 13 1 .Idle 0 =
      [ButtonEvent.MultipleClick 3] := by
  have h := c1_click_counting ⟨20, 250, 500, 100⟩ 0 100 [(200, 300), (400, 500)]
    (by decide) (by decide) (by decide) 0 (by decide) 1 (by decide)
  simpa using h

/-! ### Claim C2: long press -/

/-- Running the engine in the LongPress state of a single held press: after
j holds already emitted, the machine emits the remaining m - j holds and
then one LongPressRelease, and nothing afterwards.  m is the total number
of hold intervals elapsed between the confirmed press and the release. -/
theorem run_longpress (cfg : ButtonConfig) (p r m : Nat)
    (hhold : 0 < cfg.long_press_hold_interval)
    (hheld : p + cfg.debounce + cfg.long_press_time < r)
    (hm : m = (r - (p + cfg.debounce) - 1) / cfg.long_press_hold_interval) :
    ∀ (d j n : Nat), d = m - j → j ≤ m → m - j + 1 ≤ n →
      runN cfg [(p, r)] 3 n
        (.LongPress (p + cfg.debounce + j * cfg.long_press_hold_interval))
        (max (p + cfg.debounce + cfg.long_press_time)
          (p + cfg.debounce + j * cfg.long_press_hold_interval)) =
        List.replicate (m - j) .LongPressHold ++ [.LongPressRelease] := by
  have hA := Nat.div_add_mod (r - (p + cfg.debounce) - 1) cfg.long_press_hold_interval
  rw [← hm, Nat.mul_comm] at hA
  have hAmod := Nat.mod_lt (r - (p + cfg.debounce) - 1) hhold
  intro d
  induction d with
  | zero =>
    intro j n hd hj hn
    have hjm : j = m := by omega
    subst hjm
    obtain ⟨k, rfl⟩ : ∃ k, n = k + 1 := ⟨n - 1, by omega⟩
    rw [runN_succ]
    have hstep : step cfg [(p, r)]
        (.LongPress (p + cfg.debounce + j * cfg.long_press_hold_interval))
        (max (p + cfg.debounce + cfg.long_press_time)
          (p + cfg.debounce + j * cfg.long_press_hold_interval)) =
        .emit .LongPressRelease .Idle r := by
      simp only [step]
      rw [waitRelease_in [] (by omega) (by omega), if_pos (by omega)]
    rw [show (3 : Nat) = 2 + 1 from rfl, nextEventFuel_step_emit hstep]
    show ButtonEvent.LongPressRelease :: runN cfg [(p, r)] (2 + 1) k .Idle r = _
    rw [runN_stuck (waitPress_none_of_le [(p, r)] r (by simp)) k (2 + 1)]
    simp
  | succ d ihd =>
    intro j n hd hj hn
    have hj2 : (j + 1) * cfg.long_press_hold_interval ≤
        m * cfg.long_press_hold_interval :=
      Nat.mul_le_mul_right _ (by omega)
    rw [Nat.succ_mul] at hj2
    have hj1 : j * cfg.long_press_hold_interval ≤
        m * cfg.long_press_hold_interval :=
      Nat.mul_le_mul_right _ (by omega)
    obtain ⟨k, rfl⟩ : ∃ k, n = k + 1 := ⟨n - 1, by omega⟩
    rw [runN_succ]
    have hstep : step cfg [(p, r)]
        (.LongPress (p + cfg.debounce + j * cfg.long_press_hold_interval))
        (max (p + cfg.debounce + cfg.long_press_time)
          (p + cfg.debounce + j * cfg.long_press_hold_interval)) =
        .emit .LongPressHold
          (.LongPress
            (p + cfg.debounce + j * cfg.long_press_hold_interval +
              cfg.long_press_hold_interval))
          (max
            (p + cfg.debounce + j * cfg.long_press_hold_interval +
              cfg.long_press_hold_interval)
            (max (p + cfg.debounce + cfg.long_press_time)
              (p + cfg.debounce + j * cfg.long_press_hold_interval))) := by
      simp only [step]
      rw [waitRelease_in [] (by omega) (by omega), if_neg (by omega)]
    rw [show (3 : Nat) = 2 + 1 from rfl, nextEventFuel_step_emit hstep]
    have ih2 := ihd (j + 1) k (by omega) (by omega) (by omega)
    rw [Nat.succ_mul] at ih2
    simp only [← Nat.add_assoc] at ih2
    show ButtonEvent.LongPressHold :: runN cfg [(p, r)] (2 + 1) k
      (.LongPress (p + cfg.debounce + j * cfg.long_press_hold_interval +
        cfg.long_press_hold_interval))
      (max (p + cfg.debounce + j * cfg.long_press_hold_interval +
          cfg.long_press_hold_interval)
        (max (p + cfg.debounce + cfg.long_press_time)
          (p + cfg.debounce + j * cfg.long_press_hold_interval))) = _
    rw [show (max (p + cfg.debounce + j * cfg.long_press_hold_interval +
          cfg.long_press_hold_interval)
        (max (p + cfg.debounce + cfg.long_press_time)
          (p + cfg.debounce + j * cfg.long_press_hold_interval))) =
        (max (p + cfg.debounce + cfg.long_press_time)
          (p + cfg.debounce + j * cfg.long_press_hold_interval +
            cfg.long_press_hold_interval)) by omega]
    rw [ih2]
    rw [show m - j = (m - (j + 1)) + 1 by omega, List.replicate_succ]
    simp

/-- Claim C2 (amended: threshold measured from the debounce-confirmed
press).  A press confirmed at p + debounce and held past long_press_time
beyond the confirmation yields LongPressStart exactly once, then exactly
one LongPressHold per long_press_hold_interval elapsed between the
confirmed press and the release (m in total, bursting to catch up at the
moment LongPressStart fires, as the source retains the original press
start), then exactly one LongPressRelease, and no click event after. -/
theorem c2_long_press (cfg : ButtonConfig) (p r t0 n m : Nat)
    (hhold : 0 < cfg.long_press_hold_interval)
    (hheld : p + cfg.debounce + cfg.long_press_time < r)
    (hm : m = (r - (p + cfg.debounce) - 1) / cfg.long_press_hold_interval)
    (ht0 : t0 ≤ p) (hn : m + 2 ≤ n) :
    runN cfg [(p, r)] 3 n .Idle t0 =
      ButtonEvent.LongPressStart ::
        (List.replicate m .LongPressHold ++ [.LongPressRelease]) := by
  obtain ⟨k, rfl⟩ : ∃ k, n = k + 1 := ⟨n - 1, by omega⟩
  rw [runN_succ]
  have hwp0 : waitPress [(p, r)] t0 = some p := by
    rw [waitPress_in [] (show t0 < r by omega)]
    congr 1
    omega
  have hs0 : step cfg [(p, r)] .Idle t0 = .next (.PressDebouncing 0 p) p := by
    simp only [step, hwp0]
  have hs1 : step cfg [(p, r)] (.PressDebouncing 0 p) p =
      .next (.Pressed (p + cfg.debounce) 1) (p + cfg.debounce) := by
    simp only [step]
    rw [waitRelease_in [] (Nat.le_refl p) (by omega),
      max_eq_left (Nat.le_add_right _ _), if_neg (by omega),
      show (0 + 1) % 256 = 1 from rfl]
  have hs2 : step cfg [(p, r)] (.Pressed (p + cfg.debounce) 1) (p + cfg.debounce) =
      .emit .LongPressStart (.LongPress (p + cfg.debounce))
        (p + cfg.debounce + cfg.long_press_time) := by
    simp only [step]
    rw [waitRelease_in [] (by omega) (by omega),
      max_eq_left (Nat.le_add_right _ _), if_neg (by omega)]
  rw [show (3 : Nat) = 2 + 1 from rfl, nextEventFuel_step_next hs0,
    show (2 : Nat) = 1 + 1 from rfl, nextEventFuel_step_next hs1,
    nextEventFuel_step_emit hs2]
  show ButtonEvent.LongPressStart :: runN cfg [(p, r)] (1 + 1 + 1) k
    (.LongPress (p + cfg.debounce)) (p + cfg.debounce + cfg.long_press_time) = _
  congr 1
  have happ := run_longpress cfg p r m hhold hheld hm m 0 k (by omega) (by omega)
    (by omega)
  simp only [Nat.zero_mul, Nat.add_zero, Nat.sub_zero] at happ
  rw [show max (p + cfg.debounce + cfg.long_press_time) (p + cfg.debounce) =
    p + cfg.debounce + cfg.long_press_time by omega] at happ
  exact happ

/-- Counterexample to claim C2 as stated.  With debounce 20 and
long_press_time 500, a press at 0 released at 510 is held past
long_press_time (510 > 500), yet the run yields Click and never
LongPressStart: the engine races the release against the timer at
confirmed-press + long_press_time = 520, so the claimed threshold is off
by the debounce. -/
theorem c2_counterexample_threshold :
    runN ⟨20, 250, 500, 100⟩ [(0, 510)] 9 2 .Idle 0 = [ButtonEvent.Click] := by
  decide

/-- Witness for C2: press at 0 released at 621 with debounce 20,
long_press_time 500, hold interval 100: exactly one start, six holds
(intervals elapsed since the confirmed press at 20), one release. -/
theorem c2_witness :
    runN ⟨20, 250, 500, 100⟩ [(0, 621)] 3 9 .Idle 0 =
      ButtonEvent.LongPressStart ::
        (List.replicate 6 .LongPressHold ++ [.LongPressRelease]) := by
  have h := c2_long_press ⟨20, 250, 500, 100⟩ 0 621 0 9 6 (by decide) (by decide)
    (by decide) (by decide) (by decide)
  simpa using h

/-! ### Claim C9: reachability of count 0 in WaitingForMultiClick -/

theorem reaches_trans {cfg : ButtonConfig} {sig : Sig}
    {x y z : ButtonState × Nat} (h1 : Reaches cfg sig x y)
    (h2 : Reaches cfg sig y z) : Reaches cfg sig x z := by
  induction h2 with
  | refl => exact h1
  | tail _ hstep ih => exact .tail ih hstep

theorem advanceN_reaches : ∀ (n : Nat) (cfg : ButtonConfig) (sig : Sig)
    (x y : ButtonState × Nat), advanceN cfg sig n x = some y →
    Reaches cfg sig x y := by
  intro n
  induction n with
  | zero =>
    intro cfg sig x y h
    simp only [advanceN, Option.some.injEq] at h
    subst h
    exact .refl x
  | succ k ih =>
    intro cfg sig x y h
    simp only [advanceN] at h
    cases ha : advance cfg sig x with
    | none => rw [ha] at h; simp at h
    | some z =>
      rw [ha] at h
      exact reaches_trans (.tail (.refl x) ha) (ih cfg sig z y h)

/-- Claim C9 (amended): count provenance of the engine states.  Along any
single transition, WaitingForMultiClick{c} is entered only from
ReleaseDebouncing{c}; ReleaseDebouncing{c} only from Pressed{c};
Pressed{c} only from PressDebouncing{c0} with c = (c0 + 1) % 256 — so
c = 0 forces c0 ≡ 255 (mod 256) — or from ReleaseDebouncing{c} (a bounce,
count unchanged); and PressDebouncing{c} only from Idle (with c = 0) or
from WaitingForMultiClick{c}.  Hence count 0 in WaitingForMultiClick
arises only through u8 wrap-around after 256 confirmed presses of one
click sequence; contrary to the claim, that branch is reachable (see the
counterexample). -/
theorem c9_count_entry_inversion (cfg : ButtonConfig) (sig : Sig)
    (st : ButtonState) (t : Nat) (st2 : ButtonState) (t2 : Nat)
    (h : advance cfg sig (st, t) = some (st2, t2)) :
    (∀ c lr, st2 = .WaitingForMultiClick c lr →
      ∃ ps rs, st = .ReleaseDebouncing c ps rs) ∧
    (∀ c ps rs, st2 = .ReleaseDebouncing c ps rs → ∃ s, st = .Pressed s c) ∧
    (∀ s c, st2 = .Pressed s c →
      (∃ c0 s0, st = .PressDebouncing c0 s0 ∧ c = (c0 + 1) % 256 ∧
        (c = 0 → c0 % 256 = 255)) ∨
      (∃ ps rs, st = .ReleaseDebouncing c ps rs)) ∧
    (∀ c s, st2 = .PressDebouncing c s →
      (st = .Idle ∧ c = 0) ∨ ∃ lr, st = .WaitingForMultiClick c lr) := by
  cases st with
  | Idle =>
    cases hwp : waitPress sig t with
    | none => simp only [advance, step, hwp] at h; exact absurd h (by simp)
    | some tp =>
      simp only [advance, step, hwp, Option.some.injEq, Prod.mk.injEq] at h
      obtain ⟨h1, _⟩ := h
      subst h1
      refine ⟨?_, ?_, ?_, ?_⟩
      · intro c lr hx; exact absurd hx (by simp)
      · intro c ps rs hx; exact absurd hx (by simp)
      · intro a b hx; exact absurd hx (by simp)
      · intro c sx hx
        simp only [ButtonState.PressDebouncing.injEq] at hx
        exact Or.inl ⟨rfl, hx.1.symm⟩
  | PressDebouncing c0 s0 =>
    have hgoal : st2 = .Idle ∨
        st2 = .Pressed (max (s0 + cfg.debounce) t) ((c0 + 1) % 256) := by
      by_cases hc : waitRelease sig t ≤ max (s0 + cfg.debounce) t
      · simp only [advance, step, if_pos hc, Option.some.injEq, Prod.mk.injEq] at h
        exact Or.inl h.1.symm
      · simp only [advance, step, if_neg hc, Option.some.injEq, Prod.mk.injEq] at h
        exact Or.inr h.1.symm
    rcases hgoal with h1 | h1 <;> subst h1
    · refine ⟨?_, ?_, ?_, ?_⟩
      · intro c lr hx; exact absurd hx (by simp)
      · intro c ps rs hx; exact absurd hx (by simp)
      · intro a b hx; exact absurd hx (by simp)
      · intro c sx hx; exact absurd hx (by simp)
    · refine ⟨?_, ?_, ?_, ?_⟩
      · intro c lr hx; exact absurd hx (by simp)
      · intro c ps rs hx; exact absurd hx (by simp)
      · intro a b hx
        simp only [ButtonState.Pressed.injEq] at hx
        exact Or.inl ⟨c0, s0, rfl, hx.2.symm, fun hz => by omega⟩
      · intro c sx hx; exact absurd hx (by simp)
  | Pressed s0 c0 =>
    have hgoal : st2 = .ReleaseDebouncing c0 s0 (waitRelease sig t) ∨
        st2 = .LongPress s0 := by
      by_cases hc : waitRelease sig t ≤ max (s0 + cfg.long_press_time) t
      · simp only [advance, step, if_pos hc, Option.some.injEq, Prod.mk.injEq] at h
        exact Or.inl h.1.symm
      · simp only [advance, step, if_neg hc, Option.some.injEq, Prod.mk.injEq] at h
        exact Or.inr h.1.symm
    rcases hgoal with h1 | h1 <;> subst h1
    · refine ⟨?_, ?_, ?_, ?_⟩
      · intro c lr hx; exact absurd hx (by simp)
      · intro c ps rs hx
        simp only [ButtonState.ReleaseDebouncing.injEq] at hx
        exact ⟨s0, by rw [hx.1]⟩
      · intro a b hx; exact absurd hx (by simp)
      · intro c sx hx; exact absurd hx (by simp)
    · refine ⟨?_, ?_, ?_, ?_⟩
      · intro c lr hx; exact absurd hx (by simp)
      · intro c ps rs hx; exact absurd hx (by simp)
      · intro a b hx; exact absurd hx (by simp)
      · intro c sx hx; exact absurd hx (by simp)
  | ReleaseDebouncing c0 ps0 rs0 =>
    have hgoal : st2 = .Pressed ps0 c0 ∨ st2 = .WaitingForMultiClick c0 rs0 := by
      cases hwp : waitPress sig t with
      | none =>
        simp only [advance, step, hwp, Option.some.injEq, Prod.mk.injEq] at h
        exact Or.inr h.1.symm
      | some tp =>
        by_cases hc : tp ≤ max (rs0 + cfg.debounce) t
        · simp only [advance, step, hwp, if_pos hc, Option.some.injEq,
            Prod.mk.injEq] at h
          exact Or.inl h.1.symm
        · simp only [advance, step, hwp, if_neg hc, Option.some.injEq,
            Prod.mk.injEq] at h
          exact Or.inr h.1.symm
    rcases hgoal with h1 | h1 <;> subst h1
    · refine ⟨?_, ?_, ?_, ?_⟩
      · intro c lr hx; exact absurd hx (by simp)
      · intro c ps rs hx; exact absurd hx (by simp)
      · intro a b hx
        simp only [ButtonState.Pressed.injEq] at hx
        exact Or.inr ⟨ps0, rs0, by rw [hx.2]⟩
      · intro c sx hx; exact absurd hx (by simp)
    · refine ⟨?_, ?_, ?_, ?_⟩
      · intro c lr hx
        simp only [ButtonState.WaitingForMultiClick.injEq] at hx
        exact ⟨ps0, rs0, by rw [hx.1]⟩
      · intro c ps rs hx; exact absurd hx (by simp)
      · intro a b hx; exact absurd hx (by simp)
      · intro c sx hx; exact absurd hx (by simp)
  | WaitingForMultiClick c0 lr0 =>
    have hgoal : (∃ tp, st2 = .PressDebouncing c0 tp) ∨ st2 = .Idle := by
      cases hwp : waitPress sig t with
      | none =>
        by_cases hc : c0 = 0
        · simp only [advance, step, hwp, if_pos hc, Option.some.injEq,
            Prod.mk.injEq] at h
          exact Or.inr h.1.symm
        · simp only [advance, step, hwp, if_neg hc, Option.some.injEq,
            Prod.mk.injEq] at h
          exact Or.inr h.1.symm
      | some tp =>
        by_cases hc : tp ≤ max (lr0 + cfg.multi_click_window) t
        · simp only [advance, step, hwp, if_pos hc, Option.some.injEq,
            Prod.mk.injEq] at h
          exact Or.inl ⟨tp, h.1.symm⟩
        · by_cases hc2 : c0 = 0
          · simp only [advance, step, hwp, if_neg hc, if_pos hc2,
              Option.some.injEq, Prod.mk.injEq] at h
            exact Or.inr h.1.symm
          · simp only [advance, step, hwp, if_neg hc, if_neg hc2,
              Option.some.injEq, Prod.mk.injEq] at h
            exact Or.inr h.1.symm
    rcases hgoal with ⟨tp, h1⟩ | h1 <;> subst h1
    · refine ⟨?_, ?_, ?_, ?_⟩
      · intro c lr hx; exact absurd hx (by simp)
      · intro c ps rs hx; exact absurd hx (by simp)
      · intro a b hx; exact absurd hx (by simp)
      · intro c sx hx
        simp only [ButtonState.PressDebouncing.injEq] at hx
        exact Or.inr ⟨lr0, by rw [hx.1]⟩
    · refine ⟨?_, ?_, ?_, ?_⟩
      · intro c lr hx; exact absurd hx (by simp)
      · intro c ps rs hx; exact absurd hx (by simp)
      · intro a b hx; exact absurd hx (by simp)
      · intro c sx hx; exact absurd hx (by simp)
  | LongPress s0 =>
    have hgoal : st2 = .Idle ∨
        st2 = .LongPress (s0 + cfg.long_press_hold_interval) := by
      by_cases hc : waitRelease sig t ≤ max (s0 + cfg.long_press_hold_interval) t
      · simp only [advance, step, if_pos hc, Option.some.injEq, Prod.mk.injEq] at h
        exact Or.inl h.1.symm
      · simp only [advance, step, if_neg hc, Option.some.injEq, Prod.mk.injEq] at h
        exact Or.inr h.1.symm
    rcases hgoal with h1 | h1 <;> subst h1 <;> refine ⟨?_, ?_, ?_, ?_⟩
    · intro c lr hx; exact absurd hx (by simp)
    · intro c ps rs hx; exact absurd hx (by simp)
    · intro a b hx; exact absurd hx (by simp)
    · intro c sx hx; exact absurd hx (by simp)
    · intro c lr hx; exact absurd hx (by simp)
    · intro c ps rs hx; exact absurd hx (by simp)
    · intro a b hx; exact absurd hx (by simp)
    · intro c sx hx; exact absurd hx (by simp)

theorem advance_some_le {cfg : ButtonConfig} {sig : Sig}
    {x y : ButtonState × Nat} (h : advance cfg sig x = some y) : x.2 ≤ y.2 := by
  obtain ⟨st, t⟩ := x
  obtain ⟨st2, t2⟩ := y
  simp only [advance] at h
  cases hs : step cfg sig st t with
  | suspend => rw [hs] at h; simp at h
  | next st3 t3 =>
    rw [hs] at h
    simp only [Option.some.injEq, Prod.mk.injEq] at h
    have := step_next_le hs
    simp only
    omega
  | emit ev st3 t3 =>
    rw [hs] at h
    simp only [Option.some.injEq, Prod.mk.injEq] at h
    have := step_emit_le hs
    simp only
    omega

theorem reaches_le {cfg : ButtonConfig} {sig : Sig} {x y : ButtonState × Nat}
    (h : Reaches cfg sig x y) : x.2 ≤ y.2 := by
  induction h with
  | refl => exact Nat.le_refl _
  | tail _ hstep ih => exact le_trans ih (advance_some_le hstep)

theorem reaches_congr {cfg : ButtonConfig} {p r : Nat} {rest : Sig}
    {x y : ButtonState × Nat} (hpr : p < r) (hx : r ≤ x.2)
    (h : Reaches cfg rest x y) : Reaches cfg ((p, r) :: rest) x y := by
  induction h with
  | refl => exact .refl x
  | tail h1 hstep ih =>
    refine .tail ih ?_
    rename_i y1 z1
    have hcongr : advance cfg ((p, r) :: rest) y1 = advance cfg rest y1 := by
      simp only [advance, step_congr hpr (le_trans hx (reaches_le h1))]
    exact hcongr.trans hstep

/-- Along a list of well-timed press/release cycles, the engine walks from
the initial press debounce into WaitingForMultiClick carrying the wrapped
count of all confirmed presses. -/
theorem reach_cycles (cfg : ButtonConfig) :
    ∀ (rest : Sig) (p r c : Nat),
      goodCycles cfg ((p, r) :: rest) = true →
      sigWF ((p, r) :: rest) = true →
      Reaches cfg ((p, r) :: rest) (.PressDebouncing c p, p)
        (.WaitingForMultiClick ((c + rest.length + 1) % 256)
          (lastRel ((p, r) :: rest)),
         lastRel ((p, r) :: rest) + cfg.debounce) := by
  intro rest
  induction rest with
  | nil =>
    intro p r c hg hw
    rcases goodCycles_one.mp hg with ⟨h1, h2⟩
    rcases sigWF_cons.mp hw with ⟨hpr, _, _⟩
    have hs1 : step cfg [(p, r)] (.PressDebouncing c p) p =
        .next (.Pressed (p + cfg.debounce) ((c + 1) % 256)) (p + cfg.debounce) := by
      simp only [step]
      rw [waitRelease_in [] (Nat.le_refl p) hpr,
        max_eq_left (Nat.le_add_right p cfg.debounce), if_neg (by omega)]
    have hs2 : step cfg [(p, r)] (.Pressed (p + cfg.debounce) ((c + 1) % 256))
        (p + cfg.debounce) =
        .next (.ReleaseDebouncing ((c + 1) % 256) (p + cfg.debounce) r) r := by
      simp only [step]
      rw [waitRelease_in [] (by omega) (by omega),
        max_eq_left (Nat.le_add_right _ _), if_pos (by omega)]
    have hs3 : step cfg [(p, r)]
        (.ReleaseDebouncing ((c + 1) % 256) (p + cfg.debounce) r) r =
        .next (.WaitingForMultiClick ((c + 1) % 256) r) (r + cfg.debounce) := by
      simp only [step]
      rw [waitPress_skip [] (Nat.le_refl r)]
      simp only [waitPress]
      rw [max_eq_left (Nat.le_add_right r cfg.debounce)]
    have ha1 : advance cfg [(p, r)] (.PressDebouncing c p, p) =
        some (.Pressed (p + cfg.debounce) ((c + 1) % 256), p + cfg.debounce) := by
      simp only [advance, hs1]
    have ha2 : advance cfg [(p, r)]
        (.Pressed (p + cfg.debounce) ((c + 1) % 256), p + cfg.debounce) =
        some (.ReleaseDebouncing ((c + 1) % 256) (p + cfg.debounce) r, r) := by
      simp only [advance, hs2]
    have ha3 : advance cfg [(p, r)]
        (.ReleaseDebouncing ((c + 1) % 256) (p + cfg.debounce) r, r) =
        some (.WaitingForMultiClick ((c + 1) % 256) r, r + cfg.debounce) := by
      simp only [advance, hs3]
    simp only [List.length_nil, Nat.add_zero, lastRel]
    exact .tail (.tail (.tail (.refl _) ha1) ha2) ha3
  | cons iv2 rest2 ih =>
    obtain ⟨p2, r2⟩ := iv2
    intro p r c hg hw
    rcases goodCycles_cons2.mp hg with ⟨h1, h2, h3, h4, hgr⟩
    rcases sigWF_cons.mp hw with ⟨hpr, hlt, hwr⟩
    have hp2r2 : p2 < r2 := (sigWF_cons.mp hwr).1
    have hrp2 : r < p2 := hlt (p2, r2) (by simp)
    have hs1 : step cfg ((p, r) :: (p2, r2) :: rest2) (.PressDebouncing c p) p =
        .next (.Pressed (p + cfg.debounce) ((c + 1) % 256)) (p + cfg.debounce) := by
      simp only [step]
      rw [waitRelease_in ((p2, r2) :: rest2) (Nat.le_refl p) hpr,
        max_eq_left (Nat.le_add_right p cfg.debounce), if_neg (by omega)]
    have hs2 : step cfg ((p, r) :: (p2, r2) :: rest2)
        (.Pressed (p + cfg.debounce) ((c + 1) % 256)) (p + cfg.debounce) =
        .next (.ReleaseDebouncing ((c + 1) % 256) (p + cfg.debounce) r) r := by
      simp only [step]
      rw [waitRelease_in ((p2, r2) :: rest2) (by omega) (by omega),
        max_eq_left (Nat.le_add_right _ _), if_pos (by omega)]
    have hwp3 : waitPress ((p, r) :: (p2, r2) :: rest2) r = some p2 := by
      rw [waitPress_skip ((p2, r2) :: rest2) (Nat.le_refl r),
        waitPress_in rest2 (show r < r2 by omega)]
      congr 1
      omega
    have hs3 : step cfg ((p, r) :: (p2, r2) :: rest2)
        (.ReleaseDebouncing ((c + 1) % 256) (p + cfg.debounce) r) r =
        .next (.WaitingForMultiClick ((c + 1) % 256) r) (r + cfg.debounce) := by
      simp only [step, hwp3]
      rw [max_eq_left (Nat.le_add_right r cfg.debounce), if_neg (by omega)]
    have hwp4 : waitPress ((p, r) :: (p2, r2) :: rest2) (r + cfg.debounce) =
        some p2 := by
      rw [waitPress_skip ((p2, r2) :: rest2) (Nat.le_add_right r cfg.debounce),
        waitPress_in rest2 (show r + cfg.debounce < r2 by omega)]
      congr 1
      omega
    have hs4 : step cfg ((p, r) :: (p2, r2) :: rest2)
        (.WaitingForMultiClick ((c + 1) % 256) r) (r + cfg.debounce) =
        .next (.PressDebouncing ((c + 1) % 256) p2) p2 := by
      simp only [step, hwp4]
      rw [if_pos (le_trans h4 (Nat.le_max_left _ _))]
    have ha1 : advance cfg ((p, r) :: (p2, r2) :: rest2)
        (.PressDebouncing c p, p) =
        some (.Pressed (p + cfg.debounce) ((c + 1) % 256), p + cfg.debounce) := by
      simp only [advance, hs1]
    have ha2 : advance cfg ((p, r) :: (p2, r2) :: rest2)
        (.Pressed (p + cfg.debounce) ((c + 1) % 256), p + cfg.debounce) =
        some (.ReleaseDebouncing ((c + 1) % 256) (p + cfg.debounce) r, r) := by
      simp only [advance, hs2]
    have ha3 : advance cfg ((p, r) :: (p2, r2) :: rest2)
        (.ReleaseDebouncing ((c + 1) % 256) (p + cfg.debounce) r, r) =
        some (.WaitingForMultiClick ((c + 1) % 256) r, r + cfg.debounce) := by
      simp only [advance, hs3]
    have ha4 : advance cfg ((p, r) :: (p2, r2) :: rest2)
        (.WaitingForMultiClick ((c + 1) % 256) r, r + cfg.debounce) =
        some (.PressDebouncing ((c + 1) % 256) p2, p2) := by
      simp only [advance, hs4]
    have hfront : Reaches cfg ((p, r) :: (p2, r2) :: rest2)
        (.PressDebouncing c p, p) (.PressDebouncing ((c + 1) % 256) p2, p2) :=
      .tail (.tail (.tail (.tail (.refl _) ha1) ha2) ha3) ha4
    have hih := reaches_congr hpr (show r ≤ p2 by omega)
      (ih p2 r2 ((c + 1) % 256) hgr hwr)
    have hcount : ((c + 1) % 256 + rest2.length + 1) % 256 =
        (c + ((p2, r2) :: rest2).length + 1) % 256 := by
      simp only [List.length_cons]
      omega
    have hlast : lastRel ((p2, r2) :: rest2) =
        lastRel ((p, r) :: (p2, r2) :: rest2) := rfl
    rw [hcount, hlast] at hih
    exact reaches_trans hfront hih

set_option maxRecDepth 40000 in
set_option maxHeartbeats 3000000 in
/-- Counterexample to claim C9 as stated: WaitingForMultiClick with count 0
IS reachable from Idle: after the 256 well-timed press/release cycles of
cexSig the u8 click counter wraps to 0 on the 256th confirmed press. -/
theorem c9_counterexample_wrap_reachable :
    Reaches cexCfg cexSig (.Idle, 0) (.WaitingForMultiClick 0 25550, 25560) := by
  have hdec : cexSig = (0, 50) :: cexTail := by decide
  have ha0 : advance cexCfg cexSig (.Idle, 0) =
      some (.PressDebouncing 0 0, 0) := by decide
  have hreach := reach_cycles cexCfg cexTail 0 50 0 (by decide) (by decide)
  rw [show (0 + cexTail.length + 1) % 256 = 0 by decide,
    show lastRel ((0, 50) :: cexTail) = 25550 by decide,
    show cexCfg.debounce = 10 from rfl,
    show (25550 + 10 : Nat) = 25560 by decide] at hreach
  rw [← hdec] at hreach
  exact reaches_trans (.tail (.refl _) ha0) hreach

/-- Witness for C9 at one concrete transition entering
WaitingForMultiClick. -/
theorem c9_witness :
    (∀ c lr, (ButtonState.WaitingForMultiClick 1 5) = .WaitingForMultiClick c lr →
      ∃ ps rs, (ButtonState.ReleaseDebouncing 1 0 5) = .ReleaseDebouncing c ps rs) ∧
    (∀ c ps rs, (ButtonState.WaitingForMultiClick 1 5) = .ReleaseDebouncing c ps rs →
      ∃ s, (ButtonState.ReleaseDebouncing 1 0 5) = .Pressed s c) ∧
    (∀ s c, (ButtonState.WaitingForMultiClick 1 5) = .Pressed s c →
      (∃ c0 s0, (ButtonState.ReleaseDebouncing 1 0 5) = .PressDebouncing c0 s0 ∧
        c = (c0 + 1) % 256 ∧ (c = 0 → c0 % 256 = 255)) ∨
      (∃ ps rs, (ButtonState.ReleaseDebouncing 1 0 5) =
        .ReleaseDebouncing c ps rs)) ∧
    (∀ c s, (ButtonState.WaitingForMultiClick 1 5) = .PressDebouncing c s →
      ((ButtonState.ReleaseDebouncing 1 0 5) = .Idle ∧ c = 0) ∨
        ∃ lr, (ButtonState.ReleaseDebouncing 1 0 5) = .WaitingForMultiClick c lr) :=
  c9_count_entry_inversion cexCfg [] (.ReleaseDebouncing 1 0 5) 5
    (.WaitingForMultiClick 1 5) 15 (by decide)

/-- Claim C3: for every sequence of press/release edges separated by less
than debounce, the engine never returns any event caused by the bounce
alone: starting from Idle on a signal all of whose press pulses are shorter
than debounce, next_event never returns (part 1); a release arriving within
debounce of the press returns the machine to Idle without an event
(part 2); a press arriving within debounce of the release returns the
machine to Pressed with its click count unchanged, without an event
(part 3). -/
theorem c3_bounce_produces_no_event (cfg : ButtonConfig) (sig : Sig) :
    (sigWF sig = true → (∀ iv ∈ sig, iv.2 < iv.1 + cfg.debounce) →
      ∀ (t0 fuel : Nat), nextEventFuel cfg sig fuel .Idle t0 = none) ∧
    (∀ (c s t : Nat), waitRelease sig t ≤ max (s + cfg.debounce) t →
      step cfg sig (.PressDebouncing c s) t = .next .Idle (waitRelease sig t)) ∧
    (∀ (c ps rs t tp : Nat), waitPress sig t = some tp →
      tp ≤ max (rs + cfg.debounce) t →
      step cfg sig (.ReleaseDebouncing c ps rs) t = .next (.Pressed ps c) tp) := by
  refine ⟨fun hwf hshort t0 fuel => (bounce_no_event cfg sig hwf hshort fuel).1 t0,
    fun c s t h => ?_, fun c ps rs t tp hwp h => ?_⟩
  · simp only [step]
    rw [if_pos h]
  · simp only [step, hwp]
    rw [if_pos h]

/-- Witness for C3 at a concrete configuration and signal: debounce 20,
two press pulses of widths 10 and 9 separated by 5 ticks, and the two
single-step parts at concrete states. -/
theorem c3_witness :
    nextEventFuel ⟨20, 250, 500, 100⟩ [(0, 10), (15, 24)] 7 .Idle 0 = none ∧
    step ⟨20, 250, 500, 100⟩ [(0, 10), (15, 24)] (.PressDebouncing 0 0) 0 =
      .next .Idle 10 ∧
    step ⟨20, 250, 500, 100⟩ [(0, 10), (15, 24)] (.ReleaseDebouncing 1 0 10) 10 =
      .next (.Pressed 0 1) 15 := by
  refine ⟨(c3_bounce_produces_no_event ⟨20, 250, 500, 100⟩ [(0, 10), (15, 24)]).1
      (by decide) (by decide) 0 7, ?_, ?_⟩
  · have h := (c3_bounce_produces_no_event ⟨20, 250, 500, 100⟩
      [(0, 10), (15, 24)]).2.1 0 0 0 (by decide)
    simpa using h
  · have h := (c3_bounce_produces_no_event ⟨20, 250, 500, 100⟩
      [(0, 10), (15, 24)]).2.2 1 0 10 10 15 (by decide) (by decide)
    simpa using h

/-! ### Claim C8: median filter window behaviour -/

theorem feedAll_cons_none (f f2 : MedianFilter) (x : Nat) (xs : List Nat)
    (h : f.process x = (f2, none)) :
    feedAll f (x :: xs) = feedAll f2 xs := by
  simp only [feedAll, h]

theorem feedAll_cons_some (f f2 : MedianFilter) (x v : Nat) (xs : List Nat)
    (h : f.process x = (f2, some v)) :
    feedAll f (x :: xs) = ((feedAll f2 xs).1, v :: (feedAll f2 xs).2) := by
  simp only [feedAll, h]

theorem take_succ_set (x : Nat) : ∀ (l : List Nat) (i : Nat), i < l.length →
    (l.set i x).take (i + 1) = l.take i ++ [x] := by
  intro l
  induction l with
  | nil => intro i h; simp at h
  | cons a restl ih =>
    intro i h
    cases i with
    | zero => simp
    | succ k =>
      simp only [List.set_cons_succ, List.take_succ_cons, List.cons_append]
      rw [ih k (by simpa using h)]

theorem writeSeq_spec : ∀ (xs samples : List Nat) (i : Nat),
    i + xs.length = samples.length →
    writeSeq samples i xs = samples.take i ++ xs := by
  intro xs
  induction xs with
  | nil =>
    intro samples i h
    simp only [writeSeq, List.length_nil] at h ⊢
    have hi : i = samples.length := by omega
    rw [hi, List.take_length, List.append_nil]
  | cons x xs ih =>
    intro samples i h
    simp only [writeSeq]
    rw [ih (samples.set i x) (i + 1) (by simp only [List.length_set]; simp at h; omega),
      take_succ_set x samples i (by simp at h; omega)]
    simp

theorem feedAll_underfill : ∀ (xs : List Nat) (f : MedianFilter),
    f.index + xs.length < f.samples.length →
    feedAll f xs = (⟨writeSeq f.samples f.index xs, f.index + xs.length⟩, []) := by
  intro xs
  induction xs with
  | nil => intro f h; simp [feedAll, writeSeq]
  | cons x xs ih =>
    intro f h
    have hproc : f.process x = (⟨f.samples.set f.index x, f.index + 1⟩, none) := by
      simp only [MedianFilter.process]
      rw [if_pos (by simp only [List.length_set]; simp at h; omega)]
    rw [feedAll_cons_none f _ x xs hproc,
      ih ⟨f.samples.set f.index x, f.index + 1⟩
        (by simp only [List.length_set]; simp at h ⊢; omega)]
    have harith : f.index + 1 + xs.length = f.index + (x :: xs).length := by
      simp only [List.length_cons]
      omega
    rw [harith]
    rfl

theorem feedAll_fill : ∀ (xs : List Nat) (f : MedianFilter),
    0 < xs.length → f.index + xs.length = f.samples.length →
    feedAll f xs =
      (⟨(writeSeq f.samples f.index xs).insertionSort (· ≤ ·), 0⟩,
       [((writeSeq f.samples f.index xs).insertionSort (· ≤ ·)).getD
          (f.samples.length / 2) 0]) := by
  intro xs
  induction xs with
  | nil => intro f h0 _; simp at h0
  | cons x xs ih =>
    intro f _ h
    cases xs with
    | nil =>
      have hlenset : (f.samples.set f.index x).length = f.samples.length :=
        List.length_set _ _ _
      have hproc : f.process x =
          (⟨(f.samples.set f.index x).insertionSort (· ≤ ·), 0⟩,
           some (((f.samples.set f.index x).insertionSort (· ≤ ·)).getD
             (f.samples.length / 2) 0)) := by
        simp only [MedianFilter.process]
        rw [if_neg (by simp at h ⊢; omega), hlenset]
      rw [feedAll_cons_some f _ x _ [] hproc]
      simp [feedAll, writeSeq]
    | cons y ys =>
      have hproc : f.process x = (⟨f.samples.set f.index x, f.index + 1⟩, none) := by
        simp only [MedianFilter.process]
        rw [if_pos (by simp only [List.length_set]; simp at h; omega)]
      rw [feedAll_cons_none f _ x (y :: ys) hproc,
        ih ⟨f.samples.set f.index x, f.index + 1⟩ (by simp)
          (by simp only [List.length_set]; simp at h ⊢; omega)]
      simp only [writeSeq, List.length_set]

theorem feedAll_append (xs : List Nat) : ∀ (f : MedianFilter) (ys : List Nat),
    feedAll f (xs ++ ys) =
      ((feedAll (feedAll f xs).1 ys).1,
       (feedAll f xs).2 ++ (feedAll (feedAll f xs).1 ys).2) := by
  induction xs with
  | nil => intro f ys; simp [feedAll]
  | cons x xs ih =>
    intro f ys
    rcases hfp : f.process x with ⟨f2, out⟩
    cases out with
    | none =>
      rw [List.cons_append, feedAll_cons_none f f2 x (xs ++ ys) hfp,
        feedAll_cons_none f f2 x xs hfp, ih f2 ys]
    | some v =>
      rw [List.cons_append, feedAll_cons_some f f2 x v (xs ++ ys) hfp,
        feedAll_cons_some f f2 x v xs hfp, ih f2 ys]
      simp

/-- Claim C8: MedianFilter process returns none for each of the first
N - 1 samples of a window, on the N-th returns the middle element of the
window in sorted order, resets its index, and the next window of N samples
produces exactly its own median, independent of the previous window. -/
theorem c8_median_filter_window (N : Nat) (f : MedianFilter) (xs ys : List Nat)
    (hN : 0 < N) (hlen : f.samples.length = N) (hidx : f.index = 0) :
    (xs.length < N → (feedAll f xs).2 = []) ∧
    (xs.length = N →
      (feedAll f xs).2 = [(xs.insertionSort (· ≤ ·)).getD (N / 2) 0] ∧
      (feedAll f xs).1.samples.length = N ∧ (feedAll f xs).1.index = 0) ∧
    (xs.length = N → ys.length = N →
      (feedAll f (xs ++ ys)).2 =
        [(xs.insertionSort (· ≤ ·)).getD (N / 2) 0,
         (ys.insertionSort (· ≤ ·)).getD (N / 2) 0]) := by
  have hfill : ∀ (g : MedianFilter), g.samples.length = N → g.index = 0 →
      ∀ zs : List Nat, zs.length = N →
      feedAll g zs = (⟨zs.insertionSort (· ≤ ·), 0⟩,
        [(zs.insertionSort (· ≤ ·)).getD (N / 2) 0]) := by
    intro g hg hgi zs hzs
    have h1 := feedAll_fill zs g (by omega) (by omega)
    rw [hgi] at h1
    rw [writeSeq_spec zs g.samples 0 (by omega)] at h1
    simp only [List.take_zero, List.nil_append] at h1
    rw [hg] at h1
    exact h1
  refine ⟨?_, ?_, ?_⟩
  · intro hxs
    rw [feedAll_underfill xs f (by omega)]
  · intro hxs
    rw [hfill f hlen hidx xs hxs]
    refine ⟨rfl, ?_, rfl⟩
    simp only [List.length_insertionSort]
    omega
  · intro hxs hys
    rw [feedAll_append, hfill f hlen hidx xs hxs]
    rw [hfill ⟨xs.insertionSort (· ≤ ·), 0⟩
      (by simp only [List.length_insertionSort]; omega) rfl ys hys]
    rfl

/-- Witness for C8 with N = 3: two samples produce nothing; [5, 1, 9]
produces its median 5; the next window [2, 8, 4] produces its own
median 4. -/
theorem c8_witness :
    (feedAll ⟨[0, 0, 0], 0⟩ [5, 1]).2 = [] ∧
    (feedAll ⟨[0, 0, 0], 0⟩ [5, 1, 9]).2 = [5] ∧
    (feedAll ⟨[0, 0, 0], 0⟩ ([5, 1, 9] ++ [2, 8, 4])).2 = [5, 4] := by
  have h1 := (c8_median_filter_window 3 ⟨[0, 0, 0], 0⟩ [5, 1] []
    (by decide) rfl rfl).1 (by decide)
  have h2 := ((c8_median_filter_window 3 ⟨[0, 0, 0], 0⟩ [5, 1, 9] []
    (by decide) rfl rfl).2.1 rfl).1
  have h3 := (c8_median_filter_window 3 ⟨[0, 0, 0], 0⟩ [5, 1, 9] [2, 8, 4]
    (by decide) rfl rfl).2.2 rfl rfl
  exact ⟨h1, h2.trans (by decide), h3.trans (by decide)⟩

/-! ### Claim C6: construction-time precondition checks -/

/-- Claim C6 (amended): the keymask adapter rejects key_id >= 32 and
MedianFilter::new rejects N = 0 at construction (panic, modelled none);
but the matrix-cell constructor performs no bounds check: it succeeds for
every (row, col), in-range or not. -/
theorem c6_construction_preconditions :
    (∀ k, 32 ≤ k → KeypadButton.make k = none) ∧
    (∀ k, k < 32 → KeypadButton.make k = some ⟨1 <<< k, 0⟩) ∧
    MedianFilter.new 0 = none ∧
    (∀ N, 0 < N → MedianFilter.new N = some ⟨List.replicate N 0, 0⟩) ∧
    (∀ row col, MatrixButton.make row col = ⟨row, col⟩) := by
  refine ⟨fun k hk => ?_, fun k hk => ?_, by decide, fun N hN => ?_,
    fun row col => rfl⟩
  · simp only [KeypadButton.make]
    rw [if_neg (by omega)]
  · simp only [KeypadButton.make]
    rw [if_pos hk]
  · simp only [MedianFilter.new]
    rw [if_pos hN]

/-- Counterexample to claim C6 as stated: on a 2 x 2 matrix the cell
(5, 7) is out of range, yet requesting a matrix-cell adapter for it does
not fail: MatrixButtonFactory::button has no bounds check and returns an
adapter for the nonexistent cell (which then never matches any event). -/
theorem c6_counterexample_matrix_no_check :
    ¬ (5 < 2 ∧ 7 < 2) ∧ MatrixButton.make 5 7 = ⟨5, 7⟩ := ⟨by decide, rfl⟩

/-- Witness for C6 at concrete inputs. -/
theorem c6_witness :
    KeypadButton.make 32 = none ∧ KeypadButton.make 3 = some ⟨8, 0⟩ ∧
    MedianFilter.new 0 = none ∧ MedianFilter.new 2 = some ⟨[0, 0], 0⟩ ∧
    MatrixButton.make 1 2 = ⟨1, 2⟩ := by
  have h := c6_construction_preconditions
  exact ⟨h.1 32 (by decide), (h.2.1 3 (by decide)).trans (by decide), h.2.2.1,
    (h.2.2.2.1 2 (by decide)).trans (by decide), h.2.2.2.2 1 2⟩

/-! ### Claims C4 and C5: scan-loop delay placement and read errors -/

theorem keypadAcquire_shape {σ : Type} (proc : σ → Nat → σ × Option Nat) :
    ∀ (reads : List (Option Nat)) (s s2 : σ) (acts : List ScanAction)
      (out : Option (Nat × List (Option Nat))),
      keypadAcquire proc s reads = (s2, acts, out) →
      (out = none → readsDelayed acts = true) ∧
      (∀ v rest, out = some (v, rest) →
        ∃ raw pre, acts = pre ++ [ScanAction.readOk raw] ∧
          readsDelayed pre = true) := by
  intro reads
  induction reads with
  | nil =>
    intro s s2 acts out h
    simp only [keypadAcquire, Prod.mk.injEq] at h
    obtain ⟨_, h2, h3⟩ := h
    subst h2
    subst h3
    exact ⟨fun _ => rfl, fun v rest hv => by simp at hv⟩
  | cons res rest ih =>
    intro s s2 acts out h
    cases res with
    | none =>
      rcases hk : keypadAcquire proc s rest with ⟨s3, acts3, out3⟩
      simp only [keypadAcquire, hk, Prod.mk.injEq] at h
      obtain ⟨_, h2, h3⟩ := h
      subst h2
      subst h3
      obtain ⟨ih1, ih2⟩ := ih s s3 acts3 out3 hk
      constructor
      · intro hout
        simp only [readsDelayed]
        exact ih1 hout
      · intro v vrest hout
        obtain ⟨raw, pre, hpre, hdel⟩ := ih2 v vrest hout
        exact ⟨raw, .readErr :: .delay :: pre, by simp [hpre], by
          simpa [readsDelayed] using hdel⟩
    | some raw =>
      rcases hp : proc s raw with ⟨sp, op⟩
      cases op with
      | some v =>
        simp only [keypadAcquire, hp, Prod.mk.injEq] at h
        obtain ⟨_, h2, h3⟩ := h
        subst h2
        subst h3
        constructor
        · intro hout; simp at hout
        · intro v2 rest2 hout
          simp only [Option.some.injEq, Prod.mk.injEq] at hout
          exact ⟨raw, [], by simp, rfl⟩
      | none =>
        rcases hk : keypadAcquire proc sp rest with ⟨s3, acts3, out3⟩
        simp only [keypadAcquire, hp, hk, Prod.mk.injEq] at h
        obtain ⟨_, h2, h3⟩ := h
        subst h2
        subst h3
        obtain ⟨ih1, ih2⟩ := ih sp s3 acts3 out3 hk
        constructor
        · intro hout
          simp only [readsDelayed]
          exact ih1 hout
        · intro v vrest hout
          obtain ⟨raw2, pre, hpre, hdel⟩ := ih2 v vrest hout
          exact ⟨raw2, .readOk raw :: .delay :: pre, by simp [hpre], by
            simpa [readsDelayed] using hdel⟩

/-- Claim C4 (amended).  In AdcDriver::run the inter-sample delay follows
every read, whether or not the filter produced a value (parts 1 and 2).
In KeypadDriver::run the delay follows every read that fails or yields no
filtered value, but a read whose sample completes the filter breaks out of
the acquisition loop and is followed by no delay before the next read
(parts 3 and 4; the counterexample shows the resulting back-to-back
reads). -/
theorem c4_inter_sample_delay_placement {σ : Type}
    (proc : σ → Nat → σ × Option Nat) :
    (∀ (s : σ) (res : Option Nat),
      (adcRunCycle proc s res).2 = [.readErr, .delay] ∨
      (∃ raw, (adcRunCycle proc s res).2 = [.readOk raw, .delay]) ∨
      (∃ raw v, (adcRunCycle proc s res).2 = [.readOk raw, .publish v, .delay])) ∧
    (∀ (s : σ) (reads : List (Option Nat)),
      delaySeparated false (adcRun proc s reads).2 = true) ∧
    (∀ (s s2 : σ) (reads : List (Option Nat)) (acts : List ScanAction),
      keypadAcquire proc s reads = (s2, acts, none) →
      readsDelayed acts = true) ∧
    (∀ (s s2 : σ) (reads rest : List (Option Nat)) (acts : List ScanAction)
      (v : Nat),
      keypadAcquire proc s reads = (s2, acts, some (v, rest)) →
      ∃ raw pre, acts = pre ++ [ScanAction.readOk raw] ∧
        readsDelayed pre = true) := by
  refine ⟨fun s res => ?_, fun s reads => ?_,
    fun s s2 reads acts h => (keypadAcquire_shape proc reads s s2 acts none h).1 rfl,
    fun s s2 reads rest acts v h =>
      (keypadAcquire_shape proc reads s s2 acts (some (v, rest)) h).2 v rest rfl⟩
  · cases res with
    | none => exact Or.inl rfl
    | some raw =>
      rcases hp : proc s raw with ⟨sp, op⟩
      cases op with
      | none => exact Or.inr (Or.inl ⟨raw, by simp [adcRunCycle, hp]⟩)
      | some v => exact Or.inr (Or.inr ⟨raw, v, by simp [adcRunCycle, hp]⟩)
  · induction reads generalizing s with
    | nil => rfl
    | cons res rest ih =>
      cases res with
      | none =>
        simp only [adcRun, adcRunCycle]
        rcases hr : adcRun proc s rest with ⟨s3, acts3⟩
        simpa [delaySeparated] using (by simpa [hr] using ih s)
      | some raw =>
        rcases hp : proc s raw with ⟨sp, op⟩
        cases op with
        | none =>
          simp only [adcRun, adcRunCycle, hp]
          rcases hr : adcRun proc sp rest with ⟨s3, acts3⟩
          simpa [delaySeparated] using (by simpa [hr] using ih sp)
        | some v =>
          simp only [adcRun, adcRunCycle, hp]
          rcases hr : adcRun proc sp rest with ⟨s3, acts3⟩
          simpa [delaySeparated] using (by simpa [hr] using ih sp)

/-- Counterexample to claim C4 as stated: KeypadDriver::run with a
RawFilter (every read produces a value): two scan cycles perform two raw
reads with no inter-sample delay between them — the delay is not invoked
after a read whose value completes the filter. -/
theorem c4_counterexample_keypad_skips_delay :
    (keypadRun rawFilterProcess (fun v => v) 2 () (2 ^ 32 - 1)
      [some 5, some 5]).2.2 = [.readOk 5, .publish 5, .readOk 5] ∧
    delaySeparated false [ScanAction.readOk 5, .publish 5, .readOk 5] = false := by
  exact ⟨by decide, by decide⟩

/-- Witness for C4: an AdcDriver trace with a mid-stream read failure, a
keypad acquisition that never produces (all reads fail), and one that
completes on its second read. -/
theorem c4_witness :
    delaySeparated false
      (adcRun rawFilterProcess () [some 3, none, some 7]).2 = true ∧
    readsDelayed [ScanAction.readErr, .delay] = true ∧
    (∃ raw pre,
      [ScanAction.readErr, .delay, .readOk 9] = pre ++ [ScanAction.readOk raw] ∧
      readsDelayed pre = true) := by
  refine ⟨(c4_inter_sample_delay_placement rawFilterProcess).2.1 ()
      [some 3, none, some 7], ?_, ?_⟩
  · exact (c4_inter_sample_delay_placement
      (fun (_ : Unit) (_ : Nat) => ((), (none : Option Nat)))).2.2.1
      () () [none] [.readErr, .delay] (by decide)
  · exact (c4_inter_sample_delay_placement rawFilterProcess).2.2.2
      () () [none, some 9] [] [.readErr, .delay, .readOk 9] 9 (by decide)

/-- Claim C5 (amended).  A failed hardware read leaves the ADC scan loop
cycle with an unchanged filter state and no publish (part 1), and likewise
the decoder acquisition loop (part 2).  In the matrix scanner an is_low
error is absorbed by unwrap_or(false), i.e. read as released: when the
stored cell state is released nothing is published and the state is
unchanged (part 3), but when the stored state is pressed the error cycle
publishes a spurious release KeyEvent and flips the stored state (part 4;
see the counterexample). -/
theorem c5_read_error_handling {σ : Type} (proc : σ → Nat → σ × Option Nat) :
    (∀ s : σ, adcRunCycle proc s none = (s, [.readErr, .delay])) ∧
    (∀ (s : σ) (rest : List (Option Nat)),
      keypadAcquire proc s (none :: rest) =
        ((keypadAcquire proc s rest).1,
         .readErr :: .delay :: (keypadAcquire proc s rest).2.1,
         (keypadAcquire proc s rest).2.2)) ∧
    (∀ row col, matrixScanCell false row col none = (false, [])) ∧
    (∀ stored row col, matrixScanCell stored row col none =
      if stored then (false, [⟨row, col, false⟩]) else (stored, [])) := by
  refine ⟨fun s => rfl, fun s rest => ?_, fun row col => rfl,
    fun stored row col => ?_⟩
  · rcases hk : keypadAcquire proc s rest with ⟨s3, acts3, out3⟩
    simp [keypadAcquire, hk]
  · cases stored <;> rfl

/-- Counterexample to claim C5 as stated: in the matrix scanner, a read
error on a cell whose stored state is pressed publishes a release
KeyEvent and changes the stored state — the cycle is not skipped. -/
theorem c5_counterexample_matrix_error_publishes :
    matrixScanCell true 0 0 none = (false, [⟨0, 0, false⟩]) := rfl

/-! ### Claims C7 and C10: keymask-bit adapter waits -/

theorem keypadPressLoop_finds : ∀ (pre : List Nat) (b : KeypadButton)
    (m : Nat) (post : List Nat), (∀ x ∈ pre, x &&& b.key_mask = 0) →
    m &&& b.key_mask ≠ 0 →
    keypadPressLoop b (pre ++ m :: post) = some (⟨b.key_mask, m⟩, post) := by
  intro pre
  induction pre with
  | nil =>
    intro b m post _ hm
    simp only [List.nil_append, keypadPressLoop]
    rw [if_pos hm]
  | cons a pre ih =>
    intro b m post hpre hm
    have ha : a &&& b.key_mask = 0 := hpre a (by simp)
    simp only [List.cons_append, keypadPressLoop]
    rw [if_neg (by simp [ha])]
    exact ih ⟨b.key_mask, a⟩ m post (fun x hx => hpre x (by simp [hx])) hm

theorem keypadPressLoop_none : ∀ (msgs : List Nat) (b : KeypadButton),
    (∀ x ∈ msgs, x &&& b.key_mask = 0) → keypadPressLoop b msgs = none := by
  intro msgs
  induction msgs with
  | nil => intro b _; rfl
  | cons a rest ih =>
    intro b h
    have ha : a &&& b.key_mask = 0 := h a (by simp)
    simp only [keypadPressLoop]
    rw [if_neg (by simp [ha])]
    exact ih ⟨b.key_mask, a⟩ (fun x hx => h x (by simp [hx]))

theorem keypadReleaseLoop_finds : ∀ (pre : List Nat) (b : KeypadButton)
    (m : Nat) (post : List Nat), (∀ x ∈ pre, x &&& b.key_mask ≠ 0) →
    m &&& b.key_mask = 0 →
    keypadReleaseLoop b (pre ++ m :: post) = some (⟨b.key_mask, m⟩, post) := by
  intro pre
  induction pre with
  | nil =>
    intro b m post _ hm
    simp only [List.nil_append, keypadReleaseLoop]
    rw [if_pos hm]
  | cons a pre ih =>
    intro b m post hpre hm
    have ha : a &&& b.key_mask ≠ 0 := hpre a (by simp)
    simp only [List.cons_append, keypadReleaseLoop]
    rw [if_neg ha]
    exact ih ⟨b.key_mask, a⟩ m post (fun x hx => hpre x (by simp [hx])) hm

/-- Claim C7: the keymask adapter wait_for_press and wait_for_release
each return immediately, consuming no bus message, when the cached mask
already satisfies the desired condition (parts 1 and 4 — this is what
handles a key already held at subscription time); otherwise they consume
messages, updating the cache on every message, until the bit reaches the
desired value (parts 2 and 5: the returned cache is the first matching
message, everything before it is consumed), and suspend if it never does
(part 3). -/
theorem c7_cached_mask_short_circuit (b : KeypadButton) :
    (∀ msgs, b.last_known_mask &&& b.key_mask ≠ 0 →
      waitForPressMask b msgs = some (b, msgs)) ∧
    (∀ pre m post, b.last_known_mask &&& b.key_mask = 0 →
      (∀ x ∈ pre, x &&& b.key_mask = 0) → m &&& b.key_mask ≠ 0 →
      waitForPressMask b (pre ++ m :: post) = some (⟨b.key_mask, m⟩, post)) ∧
    (∀ msgs, b.last_known_mask &&& b.key_mask = 0 →
      (∀ x ∈ msgs, x &&& b.key_mask = 0) → waitForPressMask b msgs = none) ∧
    (∀ msgs, b.last_known_mask &&& b.key_mask = 0 →
      waitForReleaseMask b msgs = some (b, msgs)) ∧
    (∀ pre m post, b.last_known_mask &&& b.key_mask ≠ 0 →
      (∀ x ∈ pre, x &&& b.key_mask ≠ 0) → m &&& b.key_mask = 0 →
      waitForReleaseMask b (pre ++ m :: post) = some (⟨b.key_mask, m⟩, post)) := by
  refine ⟨fun msgs h => ?_, fun pre m post h hpre hm => ?_,
    fun msgs h hall => ?_, fun msgs h => ?_, fun pre m post h hpre hm => ?_⟩
  · simp only [waitForPressMask]
    rw [if_pos h]
  · simp only [waitForPressMask]
    rw [if_neg (by simp [h])]
    exact keypadPressLoop_finds pre b m post hpre hm
  · simp only [waitForPressMask]
    rw [if_neg (by simp [h])]
    exact keypadPressLoop_none msgs b hall
  · simp only [waitForReleaseMask]
    rw [if_pos h]
  · simp only [waitForReleaseMask]
    rw [if_neg h]
    exact keypadReleaseLoop_finds pre b m post hpre hm

/-- Witness for C7 at concrete adapters and streams (key bit 3, mask 8). -/
theorem c7_witness :
    waitForPressMask ⟨8, 8⟩ [1, 2] = some (⟨8, 8⟩, [1, 2]) ∧
    waitForPressMask ⟨8, 0⟩ [4, 12, 3] = some (⟨8, 12⟩, [3]) ∧
    waitForPressMask ⟨8, 0⟩ [1, 2] = none ∧
    waitForReleaseMask ⟨8, 0⟩ [8, 9] = some (⟨8, 0⟩, [8, 9]) ∧
    waitForReleaseMask ⟨8, 9⟩ [12, 2, 7] = some (⟨8, 2⟩, [7]) := by
  refine ⟨(c7_cached_mask_short_circuit ⟨8, 8⟩).1 [1, 2] (by decide),
    (c7_cached_mask_short_circuit ⟨8, 0⟩).2.1 [4] 12 [3] (by decide) (by decide)
      (by decide),
    (c7_cached_mask_short_circuit ⟨8, 0⟩).2.2.1 [1, 2] (by decide) (by decide),
    (c7_cached_mask_short_circuit ⟨8, 0⟩).2.2.2.1 [8, 9] (by decide),
    (c7_cached_mask_short_circuit ⟨8, 9⟩).2.2.2.2 [12] 2 [7] (by decide)
      (by decide) (by decide)⟩

/-- Claim C10: a freshly constructed keymask adapter caches
last_known_mask = 0, so its first wait_for_release returns immediately
without consuming any bus message — even if the key is physically held at
that moment (the pending messages may all have the bit set) — while its
first wait_for_press consumes messages until one arrives with the bit set,
and suspends if none does. -/
theorem c10_fresh_adapter_initial_mask (key_id : Nat) (b : KeypadButton)
    (h : KeypadButton.make key_id = some b) :
    b.last_known_mask = 0 ∧
    (∀ msgs, waitForReleaseMask b msgs = some (b, msgs)) ∧
    (∀ msgs, (∀ x ∈ msgs, x &&& b.key_mask = 0) →
      waitForPressMask b msgs = none) ∧
    (∀ pre m post, (∀ x ∈ pre, x &&& b.key_mask = 0) → m &&& b.key_mask ≠ 0 →
      waitForPressMask b (pre ++ m :: post) = some (⟨b.key_mask, m⟩, post)) := by
  simp only [KeypadButton.make] at h
  split at h
  · simp only [Option.some.injEq] at h
    subst h
    refine ⟨rfl, fun msgs => ?_, fun msgs hall => ?_, fun pre m post hpre hm => ?_⟩
    · simp only [waitForReleaseMask]
      rw [if_pos (by simp)]
    · simp only [waitForPressMask]
      rw [if_neg (by simp)]
      exact keypadPressLoop_none msgs _ hall
    · simp only [waitForPressMask]
      rw [if_neg (by simp)]
      exact keypadPressLoop_finds pre _ m post hpre hm
  · simp at h

/-- Witness for C10 with key_id 3 (mask 8): the fresh adapter releases
immediately even while messages with the bit set are pending, and its
first press wait consumes messages up to the first with bit 3 set. -/
theorem c10_witness :
    (⟨8, 0⟩ : KeypadButton).last_known_mask = 0 ∧
    waitForReleaseMask ⟨8, 0⟩ [9, 8] = some (⟨8, 0⟩, [9, 8]) ∧
    waitForPressMask ⟨8, 0⟩ [1, 2] = none ∧
    waitForPressMask ⟨8, 0⟩ [4, 12, 3] = some (⟨8, 12⟩, [3]) := by
  have h := c10_fresh_adapter_initial_mask 3 ⟨8, 0⟩ (by decide)
  exact ⟨h.1, h.2.1 [9, 8], h.2.2.1 [1, 2] (by decide),
    h.2.2.2 [4] 12 [3] (by decide) (by decide)⟩

end EmbassyButton
